import Mathlib

/-!
# Relay of OpenAI-style responses: `StreamHandler`, `Handler`, `GenerateFixedContentMessage`

A shallow embedding of `relay/channel/openai/main.go`.

* Go strings are byte strings: `GoString = List (Fin 256)`; `len`, slicing and
  `strings.HasPrefix` work on bytes.
* The producer goroutine of `StreamHandler` is a loop over the tokens delivered by the
  `bufio.Scanner`; its local variables are the record `Vars`, and every send on `dataChan`
  is recorded, in order, in an output list.  The consumer (`c.Stream`) receives exactly the
  values sent, in that order, and renders each one after normalising it (`render`).
* The client is taken to stay connected, so the consumer runs until the producer signals
  `stopChan`; the result then reads `responseText` and `toolCount` after the producer is done.
* Everything the file calls but does not define (JSON decoding and encoding, `common.AsString`,
  the tokenizer, the UUID and timestamp sources, the I/O results) is a field of `Env`.
* Go `int` sums are taken modulo 2^64 (`wrapInt64`); header keys are in canonical form, as
  `net/http` stores them, and every header has at least one value.
-/

namespace OpenAI

/-! ## Byte strings -/

abbrev Byte := Fin 256

abbrev GoString := List Byte

/-- The bytes of an ASCII literal. -/
def ascii (s : String) : GoString := s.toList.map (fun c => Fin.ofNat c.toNat)

/-- Go `strings.HasPrefix(s, pre)`. -/
def HasPrefix (s pre : GoString) : Bool := pre.isPrefixOf s

/-- Go `strings.TrimSuffix(s, suf)`. -/
def TrimSuffix (s suf : GoString) : GoString :=
  if suf.isSuffixOf s then s.take (s.length - suf.length) else s

/-- The literal `"data: "`. -/
def dataPrefix : GoString := ascii "data: "

/-- The literal `"data: [DONE]"`. -/
def sentinel : GoString := ascii "data: [DONE]"

/-- The literal `"stop"`. -/
def stopReason : GoString := ascii "stop"

/-- Go `int` arithmetic is 64-bit two's complement: the value an exact result wraps to. -/
def wrapInt64 (x : Int) : Int := (x + 9223372036854775808) % 18446744073709551616 - 9223372036854775808

/-- Go `a + b` on `int`. -/
def goAdd (a b : Int) : Int := wrapInt64 (a + b)

/-! ## Types declared outside `main.go` -/

/-- Modelled from the spec: a Go `interface{}` value as the stream and body decoders leave it
(the declaring package is not part of the sources); `raw` is a `json.RawMessage`. -/
inductive GoAny where
  | nil
  | str (s : GoString)
  | raw (b : GoString)
  | other (tag : Nat)
  deriving DecidableEq, Repr

/-- Modelled from the spec: the `Function` part of a streamed tool call (`Name`, `Arguments`). -/
structure ToolFunction where
  Name : GoAny
  Arguments : GoAny
  deriving DecidableEq, Repr

/-- Modelled from the spec: one entry of `delta.tool_calls`. -/
structure Tool where
  Function : ToolFunction
  deriving DecidableEq, Repr

/-- Modelled from the spec: the `Delta` of a chat stream choice; `ToolCalls` is a slice that may
be `nil`. -/
structure Delta where
  Content : GoAny
  ToolCalls : Option (List Tool)
  deriving DecidableEq, Repr

/-- Modelled from the spec: a choice of `ChatCompletionsStreamResponse`; `FinishReason` is a
`*string`. -/
structure ChatCompletionsStreamResponseChoice where
  Delta : Delta
  FinishReason : Option GoString
  deriving DecidableEq, Repr

/-- Modelled from the spec: the type `ChatCompletionsStreamResponse` (fields read by
`StreamHandler`). -/
structure ChatCompletionsStreamResponse where
  Choices : List ChatCompletionsStreamResponseChoice
  deriving DecidableEq, Repr

/-- Modelled from the spec: a choice of `CompletionsStreamResponse`. -/
structure CompletionsStreamResponseChoice where
  Text : GoString
  FinishReason : GoString
  deriving DecidableEq, Repr

/-- Modelled from the spec: the type `CompletionsStreamResponse` (fields read by
`StreamHandler`). -/
structure CompletionsStreamResponse where
  Choices : List CompletionsStreamResponseChoice
  deriving DecidableEq, Repr

/-- Modelled from the spec: the `relayMode int` argument, by the `constant.RelayMode...` value it
equals: the two constants the `switch` names, or any other integer. -/
inductive RelayMode where
  | ChatCompletions
  | Completions
  | Other (code : Int)
  deriving DecidableEq, Repr

/-- Modelled from the spec: `model.Usage`. -/
structure Usage where
  PromptTokens : Int
  CompletionTokens : Int
  TotalTokens : Int
  deriving DecidableEq, Repr

/-- Modelled from the spec: `model.Error`, the error object of an upstream body. -/
structure ModelError where
  Message : GoString
  /-- The Go field `Type`. -/
  Type_ : GoString
  Param : GoString
  Code : GoAny
  deriving DecidableEq, Repr

/-- Modelled from the spec: `model.ErrorWithStatusCode`. -/
structure ErrorWithStatusCode where
  Error : ModelError
  StatusCode : Int
  deriving DecidableEq, Repr

/-- Modelled from the spec: `model.Message`; only the `Content` field is read or assigned. -/
structure Message where
  Content : GoAny
  deriving DecidableEq, Repr

/-- Modelled from the spec: `TextResponseChoice`. -/
structure TextResponseChoice where
  Message : Message
  deriving DecidableEq, Repr

/-- Modelled from the spec: `SlimTextResponse`. -/
structure SlimTextResponse where
  Choices : List TextResponseChoice
  Usage : Usage
  Error : ModelError
  deriving DecidableEq, Repr

/-- The map literal built by `GenerateFixedContentMessage`, before `json.Marshal`. -/
structure FixedContentDoc where
  id : GoString
  object : GoString
  created : Int
  index : Int
  finish_reason : GoString
  deltaContent : GoString
  deltaRole : GoString
  deriving DecidableEq, Repr

/-- A Go `error` value, by its message. -/
abbrev GoErr := GoString

deriving instance DecidableEq for Except

/-- An `http.Header`, by the first value `v[0]` of each key (the only one the code reads). -/
abbrev Header := List (GoString × GoString)

/-- Go `h.Set(k, v)`: the key now maps to `v` alone. -/
def Header.Set (h : Header) (k v : GoString) : Header :=
  (k, v) :: h.filter (fun e => e.1 ≠ k)

/-- First value stored under `k`. -/
def Header.Get (h : Header) (k : GoString) : Option GoString :=
  (h.find? (fun e => e.1 = k)).map (fun e => e.2)

/-- The upstream `*http.Response` as the handlers use it: the outcome of reading the whole
body, the outcome of `Body.Close()`, the headers and the status code. -/
structure Response where
  ReadAll : Except GoErr GoString
  Close : Option GoErr
  Header : Header
  StatusCode : Int

/-- The client side `c.Writer`: headers set, status written, bytes written. -/
structure ResponseWriter where
  Header : Header
  Status : Option Int
  Body : GoString
  deriving DecidableEq, Repr

/-- Everything `main.go` calls but does not define. -/
structure Env where
  /-- `json.Unmarshal` into a `ChatCompletionsStreamResponse`; `none` is a decode error. -/
  unmarshalChat : GoString → Option ChatCompletionsStreamResponse
  /-- `json.Unmarshal` into a `CompletionsStreamResponse`. -/
  unmarshalCompletions : GoString → Option CompletionsStreamResponse
  /-- `json.Unmarshal` into a `SlimTextResponse`. -/
  unmarshalBody : GoString → Except GoErr SlimTextResponse
  /-- `common.AsString`. -/
  AsString : GoAny → GoString
  /-- `Message.StringContent()`. -/
  StringContent : Message → GoString
  /-- `CountTokenText(text, modelName)`. -/
  CountTokenText : GoString → GoString → Int
  /-- `common.GetUUID()`. -/
  GetUUID : GoString
  /-- `common.GetTimestamp()`. -/
  GetTimestamp : Int
  /-- `json.Marshal` of the trailer map. -/
  MarshalDoc : FixedContentDoc → Except GoErr GoString
  /-- `json.Marshal` of a string. -/
  MarshalString : GoString → Except GoErr GoString
  /-- `json.Marshal` of a `SlimTextResponse`. -/
  MarshalBody : SlimTextResponse → Except GoErr GoString
  /-- `strconv.Itoa`. -/
  Itoa : Int → GoString
  /-- `io.Copy(c.Writer, body)`: the bytes that reached the client and the error, if any. -/
  Copy : GoString → GoString × Option GoErr
  /-- `ErrorWrapper(err, code, statusCode)`. -/
  ErrorWrapper : GoErr → GoString → Int → ErrorWithStatusCode

/-! ## `GenerateFixedContentMessage` -/

/-- `GenerateFixedContentMessage(fixedContent)`: `"data: "` followed by the JSON of the trailer
event, or `""` when marshalling fails. -/
def GenerateFixedContentMessage (env : Env) (fixedContent : GoString) : GoString :=
  let modifiedFixedContent := ascii "\n\n" ++ fixedContent
  let content : FixedContentDoc :=
    { id := ascii "chatcmpl-" ++ env.GetUUID
      object := ascii "chat.completion"
      created := env.GetTimestamp
      index := 0
      finish_reason := ascii "stop"
      deltaContent := modifiedFixedContent
      deltaRole := [] }
  match env.MarshalDoc content with
  | .error _ => []
  | .ok jsonBytes => ascii "data: " ++ jsonBytes

/-! ## `StreamHandler`: the producer goroutine -/

/-- Variables of the producer goroutine (`responseText` and `toolCount` are captured from
`StreamHandler`). -/
structure Vars where
  responseText : GoString
  toolCount : Nat
  stopMessage : GoString
  needInjectFixedContent : Bool
  deriving DecidableEq, Repr

/-- State on entry to the scan loop. -/
def Vars.init : Vars :=
  { responseText := [], toolCount := 0, stopMessage := [], needInjectFixedContent := false }

/-- Inner loop over `choice.Delta.ToolCalls`: append each tool's name and arguments. -/
def toolText (env : Env) (text : GoString) (tools : List Tool) : GoString :=
  tools.foldl
    (fun t tool => t ++ env.AsString tool.Function.Name ++ env.AsString tool.Function.Arguments)
    text

/-- Body of `for _, choice := range streamResponse.Choices` in the ChatCompletions case. -/
def chatChoice (env : Env) (v : Vars) (choice : ChatCompletionsStreamResponseChoice) : Vars :=
  let v1 := { v with responseText := v.responseText ++ env.AsString choice.Delta.Content }
  let v2 :=
    match choice.Delta.ToolCalls with
    | none => v1
    | some tools =>
      let v1' := if tools.length > v1.toolCount then { v1 with toolCount := tools.length } else v1
      { v1' with responseText := toolText env v1'.responseText tools }
  if choice.FinishReason = some stopReason then { v2 with needInjectFixedContent := true } else v2

/-- Body of `for _, choice := range streamResponse.Choices` in the Completions case. -/
def completionsChoice (v : Vars) (choice : CompletionsStreamResponseChoice) : Vars :=
  let v1 := { v with responseText := v.responseText ++ choice.Text }
  if choice.FinishReason = stopReason then { v1 with needInjectFixedContent := true } else v1

/-- The `switch relayMode` on the JSON payload: `none` when `json.Unmarshal` fails (the loop
then `continue`s), otherwise the variables after the choices have been accumulated.  A relay
mode that is neither constant matches no case. -/
def switchRelayMode (env : Env) (relayMode : RelayMode) (jsonData : GoString) (v : Vars) :
    Option Vars :=
  match relayMode with
  | .ChatCompletions =>
    match env.unmarshalChat jsonData with
    | none => none
    | some streamResponse => some (streamResponse.Choices.foldl (chatChoice env) v)
  | .Completions =>
    match env.unmarshalCompletions jsonData with
    | none => none
    | some streamResponse => some (streamResponse.Choices.foldl completionsChoice v)
  | .Other _ => some v

/-- The block `if strings.HasPrefix(data, "data: ") { ... }`: the variables after it and
whether it left the iteration through a `continue`. -/
def prefixBlock (env : Env) (relayMode : RelayMode) (v : Vars) (data : GoString) : Vars × Bool :=
  if HasPrefix data dataPrefix then
    let jsonData := data.drop 6
    match switchRelayMode env relayMode jsonData v with
    | none => (v, true)
    | some v' =>
      if v'.needInjectFixedContent then ({ v' with stopMessage := data }, true) else (v', false)
  else (v, false)

/-- Outcome of one iteration of the scan loop. -/
inductive Step where
  /-- The iteration ended (normally or by `continue`) with these variables, having sent
  these values on `dataChan`. -/
  | next (v : Vars) (sent : List GoString)
  /-- The iteration executed `break`. -/
  | stop (v : Vars)
  deriving DecidableEq, Repr

/-- One iteration of `for scanner.Scan() { ... }` on the token `data`. -/
def loopBody (env : Env) (relayMode : RelayMode) (v : Vars) (data : GoString) : Step :=
  if data.length < 6 then .next v []
  else if data = sentinel then .stop v
  else
    match prefixBlock env relayMode v data with
    | (v', true) => .next v' []
    | (v', false) =>
      if !v'.needInjectFixedContent then .next v' [data] else .next v' []

/-- The scan loop over the scanner's tokens: final variables and the values sent on
`dataChan`, oldest first. -/
def scanLoop (env : Env) (relayMode : RelayMode) : List GoString → Vars → Vars × List GoString
  | [], v => (v, [])
  | data :: rest, v =>
    match loopBody env relayMode v data with
    | .stop v' => (v', [])
    | .next v' sent =>
      let r := scanLoop env relayMode rest v'
      (r.1, sent ++ r.2)

/-- The sends after the loop: the trailer and the stashed stop message when a stop was seen,
then the end signal. -/
def flush (env : Env) (fixedContent : GoString) (v : Vars) : List GoString :=
  (if v.needInjectFixedContent && v.stopMessage ≠ [] then
    (if fixedContent ≠ [] then [GenerateFixedContentMessage env fixedContent] else [])
      ++ [v.stopMessage]
  else [])
  ++ [sentinel]

/-- The consumer's treatment of one received value before `c.Render`. -/
def render (data : GoString) : GoString :=
  let data := if HasPrefix data sentinel then data.take 12 else data
  TrimSuffix data (ascii "\r")

/-- What `StreamHandler` returns and what it did. -/
structure StreamResult where
  err : Option ErrorWithStatusCode
  responseText : GoString
  toolCount : Nat
  /-- Values sent on `dataChan`, in order. -/
  sent : List GoString
  /-- Event data rendered to the client, in order. -/
  written : List GoString
  deriving DecidableEq, Repr

/-- `StreamHandler(c, resp, relayMode, fixedContent)`, on the tokens `lines` that the scanner
delivers from `resp.Body`; `close` is the outcome of `resp.Body.Close()`. -/
def StreamHandler (env : Env) (lines : List GoString) (close : Option GoErr)
    (relayMode : RelayMode) (fixedContent : GoString) : StreamResult :=
  let r := scanLoop env relayMode lines Vars.init
  let sent := r.2 ++ flush env fixedContent r.1
  let written := sent.map render
  match close with
  | some err =>
    { err := some (env.ErrorWrapper err (ascii "close_response_body_failed") 500)
      responseText := [], toolCount := 0, sent := sent, written := written }
  | none =>
    { err := none, responseText := r.1.responseText, toolCount := r.1.toolCount
      sent := sent, written := written }

/-! ## `StreamHandler`: the line splitter

`scanner.Split(func ...)` installs the function `Split`.  The scanner is
`bufio.NewScanner(resp.Body)` with its default buffer.  `Scan` calls `Split` on the bytes that
are buffered and not yet consumed, with `atEOF` once a read has ended the body; when `Split`
asks for more it makes room (it shifts the data to the front of the buffer, and doubles a full
buffer, from 4096 bytes up to `bufio.MaxScanTokenSize`, 64 KiB) and reads from `resp.Body`;
when the buffer is full at that size it stops with `ErrTooLong` and `Scan` returns false, which
ends the loop of `StreamHandler`. -/

/-- Go `strings.Index(string(data), "\n")`: the index of the first newline byte, `none` for
`-1`. -/
def indexNewline : GoString → Option Nat
  | [] => none
  | b :: rest => if b = 10 then some 0 else (indexNewline rest).map (fun i => i + 1)

/-- The split function: `(advance, token)`, where the token `none` is Go's `nil` (the error
returned is always `nil`). -/
def Split (data : GoString) (atEOF : Bool) : Nat × Option GoString :=
  if atEOF && data.length = 0 then (0, none)
  else
    match indexNewline data with
    | some i => (i + 1, some (data.take i))
    | none => if atEOF then (data.length, some data) else (0, none)

/-- Go `bufio.MaxScanTokenSize` (`64 * 1024`), the `maxTokenSize` of a scanner made by
`bufio.NewScanner`. -/
def maxTokenSize : Nat := 65536

/-- Go `bufio`'s `startBufSize`, the size of the first buffer. -/
def startBufSize : Nat := 4096

/-- State of the `bufio.Scanner` and of the body it reads. -/
structure Scanner where
  /-- The bytes `s.buf[s.start:s.end]`: buffered and not yet consumed. -/
  buf : GoString
  /-- The offset `s.start` of those bytes in the buffer. -/
  start : Nat
  /-- The size `len(s.buf)` of the buffer. -/
  size : Nat
  /-- The bytes of `resp.Body` that have not been read yet. -/
  rest : GoString
  /-- How many bytes each of the following reads is ready to return (at least one byte and at
  most the free space is returned; a reader with no entry left fills the free space). -/
  sched : List Nat
  /-- Whether the reader reports the end of the body together with its last bytes, rather
  than on the read after them. -/
  eofWithData : Bool
  /-- Whether a read has ended the body (`s.err != nil`). -/
  eof : Bool
  deriving DecidableEq, Repr

/-- `bufio.Scanner.Scan`, making room, first step: the data moves to the front of the buffer
when there is a consumed prefix and the buffer is full or more than half of it is consumed. -/
def Scanner.shift (s : Scanner) : Scanner :=
  if s.start > 0 && (decide (s.start + s.buf.length = s.size) || decide (s.start > s.size / 2)) then
    { s with start := 0 }
  else s

/-- `bufio.Scanner.Scan`, making room, second step: a full buffer is doubled (4096 bytes for
the first one, never more than `maxTokenSize`); `none` is `ErrTooLong`, for a buffer that is
full at `maxTokenSize`. -/
def Scanner.grow (s : Scanner) : Option Scanner :=
  if s.start + s.buf.length = s.size then
    if s.size ≥ maxTokenSize then none
    else
      let newSize := if s.size * 2 = 0 then startBufSize else s.size * 2
      some { s with size := min newSize maxTokenSize, start := 0 }
  else some s

/-- One `s.r.Read(s.buf[s.end:len(s.buf)])`: the end of the body, or the next bytes of the
body, no more than the free space of the buffer. -/
def Scanner.read (s : Scanner) : Scanner :=
  match s.rest with
  | [] => { s with eof := true }
  | _ :: _ =>
    let free := s.size - (s.start + s.buf.length)
    let n := min (max 1 (s.sched.headD free)) free
    let rest' := s.rest.drop n
    { s with
      buf := s.buf ++ s.rest.take n
      rest := rest'
      sched := s.sched.tail
      eof := rest'.isEmpty && s.eofWithData }

/-- One call of `scanner.Scan()`: the token delivered and the state afterwards, or `none` when
`Scan` returns false (end of the body, or `ErrTooLong`).  The fuel bounds the number of
reads. -/
def Scanner.Scan : Nat → Scanner → Option (GoString × Scanner)
  | 0, _ => none
  | fuel + 1, s =>
    if s.buf ≠ [] || s.eof then
      match Split s.buf s.eof with
      | (advance, some token) =>
        some (token, { s with buf := s.buf.drop advance, start := s.start + advance })
      | (advance, none) =>
        if s.eof then none
        else
          match Scanner.grow
              (Scanner.shift { s with buf := s.buf.drop advance, start := s.start + advance }) with
          | none => none
          | some s' => Scanner.Scan fuel (Scanner.read s')
    else
      match Scanner.grow (Scanner.shift s) with
      | none => none
      | some s' => Scanner.Scan fuel (Scanner.read s')

/-- The tokens of `for scanner.Scan() { data := scanner.Text() ... }`, at most `n` of them.
Every read returns at least one byte or ends the body, so every call of `Scan` gets fuel for
all the reads that are left. -/
def Scanner.tokens : Nat → Scanner → List GoString
  | 0, _ => []
  | n + 1, s =>
    match Scanner.Scan (s.rest.length + 2) s with
    | none => []
    | some (token, s') => token :: Scanner.tokens n s'

/-- The scanner of `bufio.NewScanner(resp.Body)` before the first `Scan`. -/
def Scanner.new (body : GoString) (sched : List Nat) (eofWithData : Bool) : Scanner :=
  { buf := [], start := 0, size := 0, rest := body, sched := sched, eofWithData := eofWithData
    eof := false }

/-- The lines the scanner delivers for a body, for a reader that behaves as `sched` and
`eofWithData` say.  Every token consumes at least one byte, so the bound on their number is
never reached. -/
def scanLines (body : GoString) (sched : List Nat) (eofWithData : Bool) : List GoString :=
  Scanner.tokens (body.length + 1) (Scanner.new body sched eofWithData)

/-- `StreamHandler` on a body. -/
def StreamHandlerOnBody (env : Env) (body : GoString) (sched : List Nat) (eofWithData : Bool)
    (close : Option GoErr) (relayMode : RelayMode) (fixedContent : GoString) : StreamResult :=
  StreamHandler env (scanLines body sched eofWithData) close relayMode fixedContent

/-! ## `Handler` -/

/-- What `Handler` returns and what it did. -/
structure HandlerResult where
  err : Option ErrorWithStatusCode
  usage : Option Usage
  responseText : GoString
  /-- The client writer `c.Writer` afterwards. -/
  writer : ResponseWriter
  /-- The upstream header map `resp.Header` afterwards. -/
  respHeader : Header
  /-- Arguments of the calls to `CountTokenText`, in order. -/
  tokenizerCalls : List (GoString × GoString)
  deriving DecidableEq, Repr

/-- A return `ErrorWrapper(err, code, http.StatusInternalServerError), nil, ""`. -/
def failWith (env : Env) (err : GoErr) (code : String) (w : ResponseWriter) (h : Header)
    (calls : List (GoString × GoString)) : HandlerResult :=
  { err := some (env.ErrorWrapper err (ascii code) 500), usage := none, responseText := []
    writer := w, respHeader := h, tokenizerCalls := calls }

/-- The loop `for _, choice := range textResponse.Choices { responseText = ... }`. -/
def lastContent (env : Env) (choices : List TextResponseChoice) : GoString :=
  choices.foldl (fun _ choice => env.StringContent choice.Message) []

/-- The loop `completionTokens += CountTokenText(choice.Message.StringContent(), modelName)`. -/
def countCompletionTokens (env : Env) (modelName : GoString) (choices : List TextResponseChoice) :
    Int :=
  choices.foldl
    (fun completionTokens choice =>
      goAdd completionTokens (env.CountTokenText (env.StringContent choice.Message) modelName))
    0

/-- The block `if textResponse.Usage.TotalTokens == 0 { ... }`: the usage afterwards and the
tokenizer calls made. -/
def deriveUsage (env : Env) (promptTokens : Int) (modelName : GoString)
    (textResponse : SlimTextResponse) : Usage × List (GoString × GoString) :=
  if textResponse.Usage.TotalTokens = 0 then
    let completionTokens := countCompletionTokens env modelName textResponse.Choices
    ({ PromptTokens := promptTokens
       CompletionTokens := completionTokens
       TotalTokens := goAdd promptTokens completionTokens },
     textResponse.Choices.map (fun choice => (env.StringContent choice.Message, modelName)))
  else (textResponse.Usage, [])

/-- The loop `for i, choice := range textResponse.Choices` of the trailer branch: every
choice's `Message.Content` becomes the JSON encoding of its content followed by `"\n\n"` and
the trailer; the first `json.Marshal` failure aborts. -/
def rewriteChoices (env : Env) (fixedContent : GoString) :
    List TextResponseChoice → Except GoErr (List TextResponseChoice)
  | [] => .ok []
  | choice :: rest =>
    let modifiedContent := env.StringContent choice.Message ++ ascii "\n\n" ++ fixedContent
    match env.MarshalString modifiedContent with
    | .error e => .error e
    | .ok encodedContent =>
      match rewriteChoices env fixedContent rest with
      | .error e => .error e
      | .ok rest' =>
        .ok ({ choice with Message := { choice.Message with Content := .raw encodedContent } }
              :: rest')

/-- The loop `for k, v := range resp.Header { c.Writer.Header().Set(k, v[0]) }`. -/
def copyHeaders (w : ResponseWriter) (h : Header) : ResponseWriter :=
  { w with Header := h.foldl (fun wh e => wh.Set e.1 e.2) w.Header }

/-- Header copy, `c.Writer.WriteHeader(resp.StatusCode)` and `io.Copy(c.Writer, resp.Body)`. -/
def writeResponse (env : Env) (w : ResponseWriter) (h : Header) (statusCode : Int)
    (body : GoString) : ResponseWriter × Option GoErr :=
  let w1 := copyHeaders w h
  let w2 := { w1 with Status := some statusCode }
  let r := env.Copy body
  ({ w2 with Body := w2.Body ++ r.1 }, r.2)

/-- `Handler(c, resp, promptTokens, modelName)`; `w` is the client writer on entry and
`fixedContent` the value of `c.GetString("fixed_content")`. -/
def Handler (env : Env) (w : ResponseWriter) (fixedContent : GoString) (resp : Response)
    (promptTokens : Int) (modelName : GoString) : HandlerResult :=
  match resp.ReadAll with
  | .error e => failWith env e "read_response_body_failed" w resp.Header []
  | .ok responseBody =>
  match resp.Close with
  | some e => failWith env e "close_response_body_failed" w resp.Header []
  | none =>
  match env.unmarshalBody responseBody with
  | .error e => failWith env e "unmarshal_response_body_failed" w resp.Header []
  | .ok textResponse =>
  if textResponse.Error.Type_ ≠ [] then
    { err := some { Error := textResponse.Error, StatusCode := resp.StatusCode }
      usage := none, responseText := [], writer := w, respHeader := resp.Header
      tokenizerCalls := [] }
  else
    let responseText :=
      if HasPrefix modelName (ascii "gpt") then lastContent env textResponse.Choices else []
    let u := deriveUsage env promptTokens modelName textResponse
    let textResponse := { textResponse with Usage := u.1 }
    if fixedContent ≠ [] && HasPrefix modelName (ascii "gpt") then
      match rewriteChoices env fixedContent textResponse.Choices with
      | .error e => failWith env e "encode_modified_content_failed" w resp.Header u.2
      | .ok choices =>
        let textResponse := { textResponse with Choices := choices }
        match env.MarshalBody textResponse with
        | .error e =>
          -- `len(modifiedResponseBody)` is 0 here; the header is set before `err` is checked
          failWith env e "remarshal_response_body_failed" w
            (resp.Header.Set (ascii "Content-Length") (env.Itoa 0)) u.2
        | .ok modifiedResponseBody =>
          let h := resp.Header.Set (ascii "Content-Length") (env.Itoa modifiedResponseBody.length)
          match writeResponse env w h resp.StatusCode modifiedResponseBody with
          | (w', some e) => failWith env e "write_modified_response_body_failed" w' h u.2
          | (w', none) =>
            { err := none, usage := some textResponse.Usage, responseText := responseText
              writer := w', respHeader := h, tokenizerCalls := u.2 }
    else
      match writeResponse env w resp.Header resp.StatusCode responseBody with
      | (w', some e) => failWith env e "copy_response_body_failed" w' resp.Header u.2
      | (w', none) =>
        -- the second `resp.Body.Close()` closes an `io.NopCloser` and returns nil
        { err := none, usage := some textResponse.Usage, responseText := responseText
          writer := w', respHeader := resp.Header, tokenizerCalls := u.2 }

/-! ## A concrete environment for the worked examples

JSON decoding is a table over the payloads the examples use, with the values
`json.Unmarshal` yields for them; every other payload is treated as malformed.  JSON encoding
covers ASCII text (quote, backslash and newline escaped). -/

/-- Stream payload: one chat choice with `delta.content = "Hi"`. -/
def hiPayload : GoString := ascii "\x7b\"choices\":[\x7b\"delta\":\x7b\"content\":\"Hi\"\x7d\x7d]\x7d"

/-- Stream payload: one chat choice with `delta.content = "Yo"`. -/
def yoPayload : GoString := ascii "\x7b\"choices\":[\x7b\"delta\":\x7b\"content\":\"Yo\"\x7d\x7d]\x7d"

/-- Stream payload: one choice with `finish_reason = "stop"`. -/
def stopPayload : GoString :=
  ascii "\x7b\"choices\":[\x7b\"delta\":\x7b\x7d,\"finish_reason\":\"stop\"\x7d]\x7d"

/-- Stream payload: the usage chunk that follows the stop chunk, with no choices. -/
def usagePayload : GoString :=
  ascii "\x7b\"choices\":[],\"usage\":\x7b\"total_tokens\":9\x7d\x7d"

/-- Stream payload: one completions choice with `text = "Hi"`. -/
def textPayload : GoString := ascii "\x7b\"choices\":[\x7b\"text\":\"Hi\"\x7d]\x7d"

def demoUnmarshalChat (payload : GoString) : Option ChatCompletionsStreamResponse :=
  if payload = hiPayload then
    some { Choices := [{ Delta := { Content := .str (ascii "Hi"), ToolCalls := none }
                         FinishReason := none }] }
  else if payload = yoPayload then
    some { Choices := [{ Delta := { Content := .str (ascii "Yo"), ToolCalls := none }
                         FinishReason := none }] }
  else if payload = stopPayload then
    some { Choices := [{ Delta := { Content := .nil, ToolCalls := none }
                         FinishReason := some (ascii "stop") }] }
  else if payload = usagePayload then some { Choices := [] }
  else none

def demoUnmarshalCompletions (payload : GoString) : Option CompletionsStreamResponse :=
  if payload = textPayload then some { Choices := [{ Text := ascii "Hi", FinishReason := [] }] }
  else if payload = stopPayload then some { Choices := [{ Text := [], FinishReason := ascii "stop" }] }
  else if payload = usagePayload then some { Choices := [] }
  else none

/-- The empty `model.Error`. -/
def noError : ModelError := { Message := [], Type_ := [], Param := [], Code := .nil }

/-- Body: two choices `"Hello"` and `"Goodbye"`, no usage. -/
def twoChoiceBody : GoString :=
  ascii ("\x7b\"choices\":[\x7b\"message\":\x7b\"content\":\"Hello\"\x7d\x7d," ++
    "\x7b\"message\":\x7b\"content\":\"Goodbye\"\x7d\x7d]\x7d")

/-- Body: one choice `"Hello"`, no usage. -/
def helloBody : GoString :=
  ascii "\x7b\"choices\":[\x7b\"message\":\x7b\"content\":\"Hello\"\x7d\x7d]\x7d"

/-- Body: an upstream error object. -/
def errorBody : GoString :=
  ascii "\x7b\"error\":\x7b\"message\":\"bad\",\"type\":\"invalid_request_error\"\x7d\x7d"

def demoUnmarshalBody (body : GoString) : Except GoErr SlimTextResponse :=
  if body = twoChoiceBody then
    .ok { Choices := [{ Message := { Content := .str (ascii "Hello") } },
                      { Message := { Content := .str (ascii "Goodbye") } }]
          Usage := { PromptTokens := 0, CompletionTokens := 0, TotalTokens := 0 }
          Error := noError }
  else if body = helloBody then
    .ok { Choices := [{ Message := { Content := .str (ascii "Hello") } }]
          Usage := { PromptTokens := 0, CompletionTokens := 0, TotalTokens := 0 }
          Error := noError }
  else if body = errorBody then
    .ok { Choices := []
          Usage := { PromptTokens := 0, CompletionTokens := 0, TotalTokens := 0 }
          Error := { Message := ascii "bad", Type_ := ascii "invalid_request_error"
                     Param := [], Code := .nil } }
  else .error (ascii "invalid character")

/-- The string value of a dynamic value, `""` when it is not a string. -/
def demoAsString : GoAny → GoString
  | .str s => s
  | _ => []

/-- JSON string literal of an ASCII text. -/
def jsonQuote (s : GoString) : GoString :=
  ascii "\"" ++ s.flatMap (fun b =>
    if b = 10 then ascii "\\n" else if b = 34 then ascii "\\\"" else if b = 92 then ascii "\\\\"
    else [b]) ++ ascii "\""

/-- Decimal digits of an integer. -/
def demoItoa (n : Int) : GoString :=
  (if n < 0 then ascii "-" else []) ++ (Nat.toDigits 10 n.natAbs).map (fun c => Fin.ofNat c.toNat)

def demoMarshalDoc (d : FixedContentDoc) : Except GoErr GoString :=
  .ok (ascii "\x7b\"choices\":[\x7b\"delta\":\x7b\"content\":" ++ jsonQuote d.deltaContent ++
    ascii ",\"role\":" ++ jsonQuote d.deltaRole ++ ascii "\x7d,\"finish_reason\":" ++
    jsonQuote d.finish_reason ++ ascii ",\"index\":" ++ demoItoa d.index ++
    ascii "\x7d],\"created\":" ++ demoItoa d.created ++ ascii ",\"id\":" ++ jsonQuote d.id ++
    ascii ",\"object\":" ++ jsonQuote d.object ++ ascii "\x7d")

def demoMarshalContent : GoAny → GoString
  | .str s => jsonQuote s
  | .raw b => b
  | _ => ascii "null"

def demoMarshalBody (t : SlimTextResponse) : Except GoErr GoString :=
  .ok (ascii "\x7b\"choices\":[" ++
    (ascii ",").intercalate (t.Choices.map (fun c =>
      ascii "\x7b\"message\":\x7b\"content\":" ++ demoMarshalContent c.Message.Content ++
        ascii "\x7d\x7d")) ++
    ascii "],\"usage\":\x7b\"prompt_tokens\":" ++ demoItoa t.Usage.PromptTokens ++
    ascii ",\"completion_tokens\":" ++ demoItoa t.Usage.CompletionTokens ++
    ascii ",\"total_tokens\":" ++ demoItoa t.Usage.TotalTokens ++ ascii "\x7d\x7d")

/-- The environment of the worked examples: the stub tokenizer counts one token per byte,
every write reaches the client. -/
def demoEnv : Env :=
  { unmarshalChat := demoUnmarshalChat
    unmarshalCompletions := demoUnmarshalCompletions
    unmarshalBody := demoUnmarshalBody
    AsString := demoAsString
    StringContent := fun m => demoAsString m.Content
    CountTokenText := fun text _ => text.length
    GetUUID := ascii "u1"
    GetTimestamp := 1700000000
    MarshalDoc := demoMarshalDoc
    MarshalString := fun s => .ok (jsonQuote s)
    MarshalBody := demoMarshalBody
    Itoa := demoItoa
    Copy := fun b => (b, none)
    ErrorWrapper := fun err code statusCode =>
      { Error := { Message := err, Type_ := ascii "one_api_error", Param := [], Code := .str code }
        StatusCode := statusCode } }

/-- An empty client writer. -/
def emptyWriter : ResponseWriter := { Header := [], Status := none, Body := [] }

/-- An upstream response with the given body and status, read and closed without error. -/
def demoResponse (body : GoString) (statusCode : Int) : Response :=
  { ReadAll := .ok body, Close := none
    Header := [(ascii "Content-Type", ascii "application/json"),
               (ascii "Content-Length", demoItoa body.length)]
    StatusCode := statusCode }

/-! ## Vocabulary of the claims -/

/-- The payload is accepted by the `switch relayMode`: `json.Unmarshal` into the schema of the
mode succeeds (a mode that matches no case decodes nothing and rejects nothing). -/
def decodes (env : Env) : RelayMode → GoString → Bool
  | .ChatCompletions, payload => (env.unmarshalChat payload).isSome
  | .Completions, payload => (env.unmarshalCompletions payload).isSome
  | .Other _, _ => true

/-- The payload decodes under the schema of the mode and one of its choices has finish reason
`"stop"`. -/
def finishesWithStop (env : Env) : RelayMode → GoString → Bool
  | .ChatCompletions, payload =>
    match env.unmarshalChat payload with
    | none => false
    | some r => r.Choices.any (fun c => decide (c.FinishReason = some stopReason))
  | .Completions, payload =>
    match env.unmarshalCompletions payload with
    | none => false
    | some r => r.Choices.any (fun c => decide (c.FinishReason = stopReason))
  | .Other _, _ => false

/-- A `data: ` line whose payload decodes with finish reason `"stop"`. -/
def isStopLine (env : Env) (relayMode : RelayMode) (data : GoString) : Bool :=
  HasPrefix data dataPrefix && finishesWithStop env relayMode (data.drop 6)

/-- A line the scan loop does not filter out: at least 6 bytes long and, when it starts with
`data: `, with a payload that decodes. -/
def kept (env : Env) (relayMode : RelayMode) (data : GoString) : Bool :=
  decide (6 ≤ data.length) && (!HasPrefix data dataPrefix || decodes env relayMode (data.drop 6))

/-- The lines that precede the first exact sentinel line. -/
def beforeSentinel (lines : List GoString) : List GoString :=
  lines.takeWhile (fun data => decide (data ≠ sentinel))

/-- The exact sum of the token counts of the choices. -/
def tokenSum (env : Env) (modelName : GoString) (choices : List TextResponseChoice) : Int :=
  (choices.map (fun choice => env.CountTokenText (env.StringContent choice.Message) modelName)).sum

/-- The rewritten choice: content replaced by the given JSON text. -/
def withRawContent (choice : TextResponseChoice) (encodedContent : GoString) :
    TextResponseChoice :=
  { choice with Message := { choice.Message with Content := .raw encodedContent } }

/-- The choice `new` is `orig` with its content replaced by the JSON encoding of the original
content followed by `"\n\n"` and the trailer. -/
def IsRewritten (env : Env) (fixedContent : GoString) (orig new : TextResponseChoice) : Prop :=
  ∃ enc, env.MarshalString (env.StringContent orig.Message ++ ascii "\n\n" ++ fixedContent)
      = .ok enc ∧ new = withRawContent orig enc

/-- The lines the splitter sentence describes: the pieces obtained by cutting the input at
every newline byte, without the final piece when it is empty. -/
def referenceLines (input : GoString) : List GoString :=
  if (input.splitOn 10).getLast? = some [] then (input.splitOn 10).dropLast
  else input.splitOn 10

/-- What one `Scan` does to the bytes that are left, whatever the reads return: the first line
and the rest, or `none` when nothing is left. -/
def nextToken (input : GoString) : Option (GoString × GoString) :=
  if input = [] then none
  else
    match indexNewline input with
    | some i => some (input.take i, input.drop (i + 1))
    | none => some (input, [])

/-- The bytes a scanner has not delivered yet. -/
def Scanner.remaining (s : Scanner) : GoString := s.buf ++ s.rest

/-- What holds of a scanner between two steps: the buffered bytes fit the buffer, the buffer
is no larger than `maxTokenSize`, and nothing is left to read once the body has ended. -/
def Scanner.Inv (s : Scanner) : Prop :=
  s.start + s.buf.length ≤ s.size ∧ s.size ≤ maxTokenSize ∧ (s.eof = true → s.rest = [])

/-- The bytes of the input up to its first newline byte. -/
def firstLine (input : GoString) : GoString := input.takeWhile (fun b => decide (b ≠ 10))

/-- A line of `maxTokenSize` bytes, all `a`. -/
def longLine : GoString := List.replicate maxTokenSize 97

/-- The body made of `longLine` and a newline. -/
def longBody : GoString := longLine ++ [10]

/-- A `data: ` line of at least six bytes whose payload is accepted by the `switch`. -/
def decodedDataLine (env : Env) (relayMode : RelayMode) (data : GoString) : Bool :=
  decide (6 ≤ data.length) && HasPrefix data dataPrefix && decodes env relayMode (data.drop 6)

/-- Number of tool-call entries of one choice (`len(choice.Delta.ToolCalls)`, 0 for `nil`). -/
def toolCallsOf (choice : ChatCompletionsStreamResponseChoice) : Nat :=
  match choice.Delta.ToolCalls with
  | none => 0
  | some tools => tools.length

/-- Largest number of tool-call entries carried by one choice of the increment. -/
def largestInIncrement (r : ChatCompletionsStreamResponse) : Nat :=
  (r.Choices.map toolCallsOf).foldr max 0

/-- Total number of tool-call entries carried by the increment, over all its choices. -/
def entriesInIncrement (r : ChatCompletionsStreamResponse) : Nat :=
  (r.Choices.map toolCallsOf).sum

/-- The increments decoded in ChatCompletions mode: the payloads of the `data: ` lines before
the first sentinel that decode. -/
def decodedIncrements (env : Env) (lines : List GoString) : List ChatCompletionsStreamResponse :=
  (beforeSentinel lines).filterMap (fun data =>
    if 6 ≤ data.length ∧ HasPrefix data dataPrefix = true then env.unmarshalChat (data.drop 6)
    else none)

/-- Largest number of tool-call entries carried by one choice of a decoded increment before
the sentinel, 0 when there is none. -/
def largestToolCalls (env : Env) (lines : List GoString) : Nat :=
  ((decodedIncrements env lines).map largestInIncrement).foldr max 0

/-- Largest total number of tool-call entries of a decoded increment before the sentinel. -/
def largestEntries (env : Env) (lines : List GoString) : Nat :=
  ((decodedIncrements env lines).map entriesInIncrement).foldr max 0

/-- Some line before the first sentinel decodes with a choice of finish reason `"stop"`. -/
def stopDecoded (env : Env) (relayMode : RelayMode) (lines : List GoString) : Bool :=
  (beforeSentinel lines).any (isStopLine env relayMode)

/-- Message content of the last choice, `""` when there is no choice. -/
def lastChoiceContent (env : Env) (choices : List TextResponseChoice) : GoString :=
  match choices.getLast? with
  | none => []
  | some choice => env.StringContent choice.Message

/-- Stream payload: one increment with two choices, each carrying one tool call. -/
def twoToolPayload : GoString :=
  ascii ("\x7b\"choices\":[\x7b\"index\":0,\"delta\":\x7b\"tool_calls\":[\x7b\"function\":" ++
    "\x7b\"name\":\"f\"\x7d\x7d]\x7d\x7d,\x7b\"index\":1,\"delta\":\x7b\"tool_calls\":" ++
    "[\x7b\"function\":\x7b\"name\":\"g\"\x7d\x7d]\x7d\x7d]\x7d")

/-- The environment of the worked examples, whose chat decoder also knows `twoToolPayload`. -/
def toolEnv : Env :=
  { demoEnv with
    unmarshalChat := fun payload =>
      if payload = twoToolPayload then
        some { Choices :=
          [{ Delta := { Content := .nil
                        ToolCalls := some [{ Function := { Name := .str (ascii "f")
                                                           Arguments := .nil } }] }
             FinishReason := none },
           { Delta := { Content := .nil
                        ToolCalls := some [{ Function := { Name := .str (ascii "g")
                                                           Arguments := .nil } }] }
             FinishReason := none }] }
      else demoUnmarshalChat payload }

/-- Body: one choice `"Hello"` with an upstream usage whose total is not the sum of its
parts. -/
def usageBody : GoString :=
  ascii ("\x7b\"choices\":[\x7b\"message\":\x7b\"content\":\"Hello\"\x7d\x7d],\"usage\":" ++
    "\x7b\"prompt_tokens\":3,\"completion_tokens\":4,\"total_tokens\":9\x7d\x7d")

/-- The decoded `usageBody`. -/
def usageResponse : SlimTextResponse :=
  { Choices := [{ Message := { Content := .str (ascii "Hello") } }]
    Usage := { PromptTokens := 3, CompletionTokens := 4, TotalTokens := 9 }
    Error := noError }

/-- The environment of the worked examples, whose body decoder also knows `usageBody`. -/
def usageEnv : Env :=
  { demoEnv with
    unmarshalBody := fun body =>
      if body = usageBody then .ok usageResponse else demoUnmarshalBody body }

/-- The decoded `twoChoiceBody`. -/
def twoChoiceResponse : SlimTextResponse :=
  { Choices := [{ Message := { Content := .str (ascii "Hello") } },
                { Message := { Content := .str (ascii "Goodbye") } }]
    Usage := { PromptTokens := 0, CompletionTokens := 0, TotalTokens := 0 }
    Error := noError }

/-! ## Basic facts -/

theorem sentinel_length : sentinel.length = 12 := by decide

theorem dataPrefix_length : dataPrefix.length = 6 := by decide

theorem hasPrefix_iff {s pre : GoString} : HasPrefix s pre = true ↔ pre <+: s := by
  unfold HasPrefix
  exact List.isPrefixOf_iff_prefix

theorem length_of_hasPrefix {s : GoString} (h : HasPrefix s dataPrefix = true) :
    6 ≤ s.length := by
  have h1 := (hasPrefix_iff.mp h).length_le
  rw [dataPrefix_length] at h1
  exact h1

theorem sentinel_hasPrefix : HasPrefix sentinel dataPrefix = true := by decide

theorem hasPrefix_data_of_sentinel {s : GoString} (h : HasPrefix s sentinel = true) :
    HasPrefix s dataPrefix = true := by
  rw [hasPrefix_iff] at h ⊢
  exact (hasPrefix_iff.mp sentinel_hasPrefix).trans h

theorem foldl_chatChoice_need (env : Env) (cs : List ChatCompletionsStreamResponseChoice)
    (v : Vars) :
    (cs.foldl (chatChoice env) v).needInjectFixedContent
      = (v.needInjectFixedContent || cs.any (fun c => decide (c.FinishReason = some stopReason))) := by
  induction cs generalizing v with
  | nil => simp
  | cons c cs ih =>
    rw [List.foldl_cons, ih]
    by_cases hc : c.FinishReason = some stopReason
    · simp [chatChoice, hc]
    · simp only [chatChoice, hc, if_false, List.any_cons, decide_False, Bool.false_or]
      cases c.Delta.ToolCalls with
      | none => simp
      | some tools =>
        simp only
        split <;> simp

theorem foldl_chatChoice_stopMessage (env : Env) (cs : List ChatCompletionsStreamResponseChoice)
    (v : Vars) : (cs.foldl (chatChoice env) v).stopMessage = v.stopMessage := by
  induction cs generalizing v with
  | nil => simp
  | cons c cs ih =>
    rw [List.foldl_cons, ih]
    unfold chatChoice
    cases c.Delta.ToolCalls with
    | none => simp only; split <;> simp
    | some tools => simp only; split <;> split <;> simp

theorem foldl_completionsChoice_need (cs : List CompletionsStreamResponseChoice) (v : Vars) :
    (cs.foldl completionsChoice v).needInjectFixedContent
      = (v.needInjectFixedContent || cs.any (fun c => decide (c.FinishReason = stopReason))) := by
  induction cs generalizing v with
  | nil => simp
  | cons c cs ih =>
    rw [List.foldl_cons, ih]
    by_cases hc : c.FinishReason = stopReason <;> simp [completionsChoice, hc]

theorem foldl_completionsChoice_stopMessage (cs : List CompletionsStreamResponseChoice)
    (v : Vars) : (cs.foldl completionsChoice v).stopMessage = v.stopMessage := by
  induction cs generalizing v with
  | nil => simp
  | cons c cs ih =>
    rw [List.foldl_cons, ih]
    unfold completionsChoice
    split <;> simp

theorem switchRelayMode_eq_none (env : Env) (m : RelayMode) (p : GoString) (v : Vars) :
    switchRelayMode env m p v = none ↔ decodes env m p = false := by
  cases m with
  | ChatCompletions =>
    simp only [switchRelayMode, decodes]
    cases env.unmarshalChat p <;> simp
  | Completions =>
    simp only [switchRelayMode, decodes]
    cases env.unmarshalCompletions p <;> simp
  | Other c => simp [switchRelayMode, decodes]

theorem switchRelayMode_some {env : Env} {m : RelayMode} {p : GoString} {v w : Vars}
    (h : switchRelayMode env m p v = some w) :
    w.needInjectFixedContent = (v.needInjectFixedContent || finishesWithStop env m p)
      ∧ w.stopMessage = v.stopMessage := by
  cases m with
  | ChatCompletions =>
    simp only [switchRelayMode, finishesWithStop] at h ⊢
    cases hu : env.unmarshalChat p with
    | none => simp [hu] at h
    | some r =>
      simp only [hu, Option.some.injEq] at h
      subst h
      exact ⟨foldl_chatChoice_need env _ _, foldl_chatChoice_stopMessage env _ _⟩
  | Completions =>
    simp only [switchRelayMode, finishesWithStop] at h ⊢
    cases hu : env.unmarshalCompletions p with
    | none => simp [hu] at h
    | some r =>
      simp only [hu, Option.some.injEq] at h
      subst h
      exact ⟨foldl_completionsChoice_need _ _, foldl_completionsChoice_stopMessage _ _⟩
  | Other c =>
    simp only [switchRelayMode, Option.some.injEq] at h
    subst h
    simp [finishesWithStop]

theorem finishesWithStop_decodes {env : Env} {m : RelayMode} {p : GoString}
    (h : finishesWithStop env m p = true) : decodes env m p = true := by
  cases m with
  | ChatCompletions =>
    simp only [finishesWithStop, decodes] at h ⊢
    cases hu : env.unmarshalChat p <;> simp [hu] at h ⊢
  | Completions =>
    simp only [finishesWithStop, decodes] at h ⊢
    cases hu : env.unmarshalCompletions p <;> simp [hu] at h ⊢
  | Other c => simp [finishesWithStop] at h

/-! ## One iteration of the scan loop, by kind of line -/

theorem loopBody_short (env : Env) (m : RelayMode) (v : Vars) {data : GoString}
    (h : data.length < 6) : loopBody env m v data = .next v [] := by
  simp [loopBody, h]

theorem loopBody_sentinel (env : Env) (m : RelayMode) (v : Vars) :
    loopBody env m v sentinel = .stop v := by
  simp [loopBody, sentinel_length]

theorem loopBody_comment (env : Env) (m : RelayMode) (v : Vars) {data : GoString}
    (hlen : 6 ≤ data.length) (hp : HasPrefix data dataPrefix = false) :
    loopBody env m v data = .next v (if v.needInjectFixedContent then [] else [data]) := by
  have hs : data ≠ sentinel := by
    intro h
    rw [h, sentinel_hasPrefix] at hp
    exact Bool.noConfusion hp
  have hlen' : ¬ data.length < 6 := by omega
  simp only [loopBody, hlen', hs, prefixBlock, hp, if_false]
  cases hv : v.needInjectFixedContent <;> simp [hv]

theorem loopBody_malformed (env : Env) (m : RelayMode) (v : Vars) {data : GoString}
    (hp : HasPrefix data dataPrefix = true) (hs : data ≠ sentinel)
    (hd : decodes env m (data.drop 6) = false) : loopBody env m v data = .next v [] := by
  have hlen' : ¬ data.length < 6 := by
    have := length_of_hasPrefix hp
    omega
  have hn := (switchRelayMode_eq_none env m (data.drop 6) v).mpr hd
  simp [loopBody, hlen', hs, prefixBlock, hp, hn]

theorem loopBody_decoded (env : Env) (m : RelayMode) (v w : Vars) {data : GoString}
    (hp : HasPrefix data dataPrefix = true) (hs : data ≠ sentinel)
    (hw : switchRelayMode env m (data.drop 6) v = some w) :
    loopBody env m v data
      = if w.needInjectFixedContent then .next { w with stopMessage := data } []
        else .next w [data] := by
  have hlen' : ¬ data.length < 6 := by
    have := length_of_hasPrefix hp
    omega
  simp only [loopBody, hlen', hs, prefixBlock, hp, hw, if_false, if_true]
  cases hv : w.needInjectFixedContent <;> simp [hv]

/-! ## The scan loop -/

theorem scanLoop_nil (env : Env) (m : RelayMode) (v : Vars) : scanLoop env m [] v = (v, []) := rfl

theorem scanLoop_cons_next (env : Env) (m : RelayMode) {v w : Vars} {data : GoString}
    {out : List GoString} (rest : List GoString) (h : loopBody env m v data = .next w out) :
    scanLoop env m (data :: rest) v
      = ((scanLoop env m rest w).1, out ++ (scanLoop env m rest w).2) := by
  simp [scanLoop, h]

theorem scanLoop_cons_stop (env : Env) (m : RelayMode) {v w : Vars} {data : GoString}
    (rest : List GoString) (h : loopBody env m v data = .stop w) :
    scanLoop env m (data :: rest) v = (w, []) := by
  simp [scanLoop, h]

/-- Nothing after the first exact sentinel line is read. -/
theorem scanLoop_append_sentinel (env : Env) (m : RelayMode) (pre suf : List GoString)
    (v : Vars) : scanLoop env m (pre ++ sentinel :: suf) v = scanLoop env m pre v := by
  induction pre generalizing v with
  | nil => rw [List.nil_append, scanLoop_cons_stop env m suf (loopBody_sentinel env m v), scanLoop_nil]
  | cons d pre ih =>
    rw [List.cons_append]
    cases h : loopBody env m v d with
    | stop w => rw [scanLoop_cons_stop env m _ h, scanLoop_cons_stop env m _ h]
    | next w out => rw [scanLoop_cons_next env m _ h, scanLoop_cons_next env m _ h, ih]

theorem StreamHandler_sent (env : Env) (lines : List GoString) (close : Option GoErr)
    (m : RelayMode) (fixedContent : GoString) :
    (StreamHandler env lines close m fixedContent).sent
      = (scanLoop env m lines Vars.init).2
          ++ flush env fixedContent (scanLoop env m lines Vars.init).1 := by
  cases close <;> rfl

theorem StreamHandler_written (env : Env) (lines : List GoString) (close : Option GoErr)
    (m : RelayMode) (fixedContent : GoString) :
    (StreamHandler env lines close m fixedContent).written
      = (StreamHandler env lines close m fixedContent).sent.map render := by
  cases close <;> rfl

/-- Every iteration of the scan loop is of one of four kinds: the sentinel (break), a
filtered line (short or malformed), a comment line, a decoded `data: ` line. -/
theorem loopBody_cases (env : Env) (m : RelayMode) (v : Vars) (d : GoString) :
    (d = sentinel ∧ loopBody env m v d = .stop v) ∨
    (d ≠ sentinel ∧ kept env m d = false ∧ loopBody env m v d = .next v []) ∨
    (d ≠ sentinel ∧ kept env m d = true ∧ HasPrefix d dataPrefix = false ∧
      loopBody env m v d = .next v (if v.needInjectFixedContent then [] else [d])) ∨
    (d ≠ sentinel ∧ kept env m d = true ∧ HasPrefix d dataPrefix = true ∧
      ∃ w, switchRelayMode env m (d.drop 6) v = some w ∧
        loopBody env m v d
          = if w.needInjectFixedContent then .next { w with stopMessage := d } []
            else .next w [d]) := by
  by_cases hs : d = sentinel
  · left
    exact ⟨hs, by rw [hs]; exact loopBody_sentinel env m v⟩
  right
  by_cases hlen : d.length < 6
  · left
    refine ⟨hs, ?_, loopBody_short env m v hlen⟩
    have : ¬ 6 ≤ d.length := by omega
    simp [kept, this]
  have hlen' : 6 ≤ d.length := by omega
  cases hp : HasPrefix d dataPrefix with
  | false =>
    right; left
    exact ⟨hs, by simp [kept, hlen', hp], rfl, loopBody_comment env m v hlen' hp⟩
  | true =>
    cases hw : switchRelayMode env m (d.drop 6) v with
    | none =>
      left
      have hd := (switchRelayMode_eq_none env m _ v).mp hw
      exact ⟨hs, by simp [kept, hp, hd], loopBody_malformed env m v hp hs hd⟩
    | some w =>
      right; right
      have hd : decodes env m (d.drop 6) = true := by
        cases h : decodes env m (d.drop 6) with
        | true => rfl
        | false =>
          rw [(switchRelayMode_eq_none env m _ v).mpr h] at hw
          exact Option.noConfusion hw
      exact ⟨hs, by simp [kept, hlen', hd], rfl, w, rfl, loopBody_decoded env m v w hp hs hw⟩

/-! ## The consumer -/

theorem trimSuffix_sentinel : TrimSuffix sentinel (ascii "\r") = sentinel := by decide

/-- The consumer renders exactly the values that begin with `data: [DONE]` as the sentinel. -/
theorem render_eq_sentinel_iff (data : GoString) :
    render data = sentinel ↔ HasPrefix data sentinel = true := by
  constructor
  · intro h
    by_contra hp
    have hp' : HasPrefix data sentinel = false := by simpa using hp
    simp only [render, hp', Bool.false_eq_true, if_false, TrimSuffix] at h
    split at h
    · have h1 : sentinel <+: data := by
        rw [← h]
        exact List.take_prefix _ _
      rw [hasPrefix_iff.mpr h1] at hp'
      exact Bool.noConfusion hp'
    · rw [h] at hp'
      have : HasPrefix sentinel sentinel = true := by decide
      rw [this] at hp'
      exact Bool.noConfusion hp'
  · intro hp
    obtain ⟨t, ht⟩ := hasPrefix_iff.mp hp
    have htake : data.take 12 = sentinel := by
      rw [← ht]
      exact List.take_left' sentinel_length
    simp only [render, hp, if_true, htake]
    exact trimSuffix_sentinel

theorem sentinel_eq_append : sentinel = dataPrefix ++ ascii "[DONE]" := by decide

/-- When the JSON encoder never yields a text beginning with `[DONE]`, the trailer line does
not begin with `data: [DONE]`. -/
theorem generateFixedContentMessage_not_sentinel (env : Env) (fixedContent : GoString)
    (hmarshal : ∀ d out, env.MarshalDoc d = .ok out → HasPrefix out (ascii "[DONE]") = false) :
    HasPrefix (GenerateFixedContentMessage env fixedContent) sentinel = false := by
  unfold GenerateFixedContentMessage
  simp only
  split
  · decide
  · next out hout =>
    have h1 := hmarshal _ _ hout
    cases h2 : HasPrefix (ascii "data: " ++ out) sentinel with
    | false => rfl
    | true =>
      rw [hasPrefix_iff, sentinel_eq_append] at h2
      have h3 : ascii "[DONE]" <+: out := (List.prefix_append_right_inj _).mp h2
      rw [hasPrefix_iff.mpr h3] at h1
      exact Bool.noConfusion h1

/-- If every line that begins with `data: [DONE]` without being the sentinel fails to decode,
no value sent by the scan loop begins with `data: [DONE]`, and neither does a stop message
stashed by it. -/
theorem scanLoop_not_sentinel (env : Env) (m : RelayMode) (lines : List GoString)
    (hjson : ∀ l ∈ lines, HasPrefix l sentinel = true → l ≠ sentinel →
      decodes env m (l.drop 6) = false) (v : Vars) :
    (∀ l ∈ (scanLoop env m lines v).2, HasPrefix l sentinel = false) ∧
      ((scanLoop env m lines v).1.stopMessage = v.stopMessage ∨
        HasPrefix (scanLoop env m lines v).1.stopMessage sentinel = false) := by
  induction lines generalizing v with
  | nil => simp [scanLoop_nil]
  | cons d ds ih =>
    have hds : ∀ l ∈ ds, HasPrefix l sentinel = true → l ≠ sentinel →
        decodes env m (l.drop 6) = false := fun l hl => hjson l (List.mem_cons_of_mem _ hl)
    rcases loopBody_cases env m v d with ⟨_, hb⟩ | ⟨_, _, hb⟩ | ⟨_, _, hp, hb⟩ |
        ⟨hs, hk, hp, w, hw, hb⟩
    · rw [scanLoop_cons_stop env m _ hb]
      simp
    · rw [scanLoop_cons_next env m _ hb]
      simpa using ih hds v
    · have hd : HasPrefix d sentinel = false := by
        cases h : HasPrefix d sentinel with
        | false => rfl
        | true =>
          rw [hasPrefix_data_of_sentinel h] at hp
          exact Bool.noConfusion hp
      rw [scanLoop_cons_next env m _ hb]
      obtain ⟨ih1, ih2⟩ := ih hds v
      refine ⟨?_, ih2⟩
      intro l hl
      rcases List.mem_append.mp hl with h | h
      · cases hv : v.needInjectFixedContent
        · simp only [hv, Bool.false_eq_true, if_false, List.mem_singleton] at h
          rw [h]; exact hd
        · simp [hv] at h
      · exact ih1 l h
    · have hdec : decodes env m (d.drop 6) = true := by
        simpa [kept, hp, length_of_hasPrefix hp] using hk
      have hd : HasPrefix d sentinel = false := by
        cases h : HasPrefix d sentinel with
        | false => rfl
        | true =>
          rw [hjson d (List.mem_cons_self _ _) h hs] at hdec
          exact Bool.noConfusion hdec
      have hwm := (switchRelayMode_some hw).2
      cases hn : w.needInjectFixedContent with
      | true =>
        rw [if_pos hn] at hb
        rw [scanLoop_cons_next env m _ hb]
        obtain ⟨ih1, ih2⟩ := ih hds { w with stopMessage := d }
        refine ⟨by simpa using ih1, Or.inr ?_⟩
        rcases ih2 with h | h
        · rw [h]; exact hd
        · exact h
      | false =>
        rw [if_neg (by simp [hn])] at hb
        rw [scanLoop_cons_next env m _ hb]
        obtain ⟨ih1, ih2⟩ := ih hds w
        constructor
        · intro l hl
          rcases List.mem_append.mp hl with h | h
          · rw [List.mem_singleton.mp h]; exact hd
          · exact ih1 l h
        · rcases ih2 with h | h
          · exact Or.inl (h.trans hwm)
          · exact Or.inr h

/-! ## Lines that leave no trace -/

theorem isStopLine_kept {env : Env} {m : RelayMode} {d : GoString}
    (h : isStopLine env m d = true) : kept env m d = true := by
  simp only [isStopLine, Bool.and_eq_true] at h
  simp [kept, length_of_hasPrefix h.1, finishesWithStop_decodes h.2]

theorem beforeSentinel_cons_sentinel (ds : List GoString) :
    beforeSentinel (sentinel :: ds) = [] := by
  simp [beforeSentinel]

theorem beforeSentinel_cons_ne {d : GoString} (h : d ≠ sentinel) (ds : List GoString) :
    beforeSentinel (d :: ds) = d :: beforeSentinel ds := by
  simp [beforeSentinel, List.takeWhile_cons, h]

/-- C7 (the sentinel stops processing).  Whatever follows the first exact `data: [DONE]` line
is never read: the handler's whole result (values sent, lines written, response text, tool
count, error) on `pre ++ [data: [DONE]] ++ suf` is its result on `pre`. -/
theorem c7_sentinel_stops_processing (env : Env) (relayMode : RelayMode)
    (fixedContent : GoString) (close : Option GoErr) (pre suf : List GoString) :
    StreamHandler env (pre ++ sentinel :: suf) close relayMode fixedContent
      = StreamHandler env pre close relayMode fixedContent := by
  unfold StreamHandler
  rw [scanLoop_append_sentinel]

/-- C2 (sentinel guarantee), amended.  Provided every upstream line that begins with
`data: [DONE]` without being exactly that line is rejected by the decoder of the active relay
mode, and the JSON encoder never yields a text beginning with `[DONE]` (both hold for
`encoding/json` in ChatCompletions and Completions mode), the lines written to the client
contain `data: [DONE]` exactly once, as the last line. -/
theorem c2_sentinel_once_and_last (env : Env) (relayMode : RelayMode) (fixedContent : GoString)
    (close : Option GoErr) (lines : List GoString)
    (hjson : ∀ l ∈ lines, HasPrefix l sentinel = true → l ≠ sentinel →
      decodes env relayMode (l.drop 6) = false)
    (hmarshal : ∀ d out, env.MarshalDoc d = .ok out → HasPrefix out (ascii "[DONE]") = false) :
    (StreamHandler env lines close relayMode fixedContent).written.count sentinel = 1 ∧
      (StreamHandler env lines close relayMode fixedContent).written.getLast? = some sentinel := by
  obtain ⟨h1, h2⟩ := scanLoop_not_sentinel env relayMode lines hjson Vars.init
  have htr := generateFixedContentMessage_not_sentinel env fixedContent hmarshal
  have hinit : HasPrefix Vars.init.stopMessage sentinel = false := by decide
  have hmsg : HasPrefix (scanLoop env relayMode lines Vars.init).1.stopMessage sentinel = false := by
    rcases h2 with h | h
    · rw [h]; exact hinit
    · exact h
  have hrs : render sentinel = sentinel := by decide
  have hbefore : ∀ l ∈ (scanLoop env relayMode lines Vars.init).2
      ++ (if (scanLoop env relayMode lines Vars.init).1.needInjectFixedContent
              && decide ((scanLoop env relayMode lines Vars.init).1.stopMessage ≠ []) then
            (if fixedContent ≠ [] then [GenerateFixedContentMessage env fixedContent] else [])
              ++ [(scanLoop env relayMode lines Vars.init).1.stopMessage]
          else []), render l ≠ sentinel := by
    intro l hl hr
    have hpl := (render_eq_sentinel_iff l).mp hr
    have hnot : HasPrefix l sentinel = false := by
      rcases List.mem_append.mp hl with h | h
      · exact h1 l h
      · split at h
        · rcases List.mem_append.mp h with h' | h'
          · split at h'
            · rw [List.mem_singleton.mp h']; exact htr
            · simp at h'
          · rw [List.mem_singleton.mp h']; exact hmsg
        · simp at h
    rw [hnot] at hpl
    exact Bool.noConfusion hpl
  rw [StreamHandler_written, StreamHandler_sent]
  unfold flush
  rw [← List.append_assoc, List.map_append, List.map_singleton, hrs]
  constructor
  · rw [List.count_append, List.count_singleton_self, List.count_eq_zero.mpr]
    intro hmem
    obtain ⟨l, hl, hr⟩ := List.mem_map.mp hmem
    exact hbefore l hl hr
  · simp

/-- C2 amended, at a concrete stream with a carriage return after every line. -/
theorem c2_sentinel_once_and_last_witness :
    (StreamHandler demoEnv [ascii "data: " ++ hiPayload, ascii "data: [DONE]\r"] none
        .ChatCompletions (ascii "T")).written.count sentinel = 1 ∧
      (StreamHandler demoEnv [ascii "data: " ++ hiPayload, ascii "data: [DONE]\r"] none
        .ChatCompletions (ascii "T")).written.getLast? = some sentinel :=
  c2_sentinel_once_and_last demoEnv .ChatCompletions (ascii "T") none
    [ascii "data: " ++ hiPayload, ascii "data: [DONE]\r"] (by decide)
    (by
      intro d out h
      simp only [demoEnv, demoMarshalDoc, Except.ok.injEq] at h
      rw [← h]
      rfl)

/-- C2 as stated fails: in a relay mode that decodes nothing, the line `data: [DONE]\r` is
forwarded, rendered as the sentinel, and followed by the final sentinel. -/
theorem c2_two_sentinels :
    (StreamHandler demoEnv [ascii "data: [DONE]\r"] none (.Other 0) []).written
        = [sentinel, sentinel] ∧
      (StreamHandler demoEnv [ascii "data: [DONE]\r"] none (.Other 0) []).written.count sentinel
        ≠ 1 := by
  decide

/-- C3 (withheld stop line), the code at a failing input.  The stop chunk is followed by the
usage chunk, which also decodes: the stashed message is overwritten, so the value sent just
before the final `data: [DONE]` is the usage line and the stop line is never sent, with or
without a trailer. -/
theorem c3_stop_line_overwritten :
    (StreamHandler demoEnv
        [ascii "data: " ++ stopPayload, ascii "data: " ++ usagePayload, sentinel]
        none .ChatCompletions []).sent
      = [ascii "data: " ++ usagePayload, sentinel] ∧
    (StreamHandler demoEnv
        [ascii "data: " ++ stopPayload, ascii "data: " ++ usagePayload, sentinel]
        none .ChatCompletions (ascii "T")).sent
      = [GenerateFixedContentMessage demoEnv (ascii "T"), ascii "data: " ++ usagePayload,
          sentinel] ∧
    isStopLine demoEnv .ChatCompletions (ascii "data: " ++ stopPayload) = true ∧
    isStopLine demoEnv .ChatCompletions (ascii "data: " ++ usagePayload) = false := by
  decide

theorem wrapInt64_add_left (a b : Int) : wrapInt64 (wrapInt64 a + b) = wrapInt64 (a + b) := by
  unfold wrapInt64
  omega

theorem wrapInt64_add_right (a b : Int) : wrapInt64 (a + wrapInt64 b) = wrapInt64 (a + b) := by
  unfold wrapInt64
  omega

theorem wrapInt64_of_inRange {x : Int} (h1 : -9223372036854775808 ≤ x)
    (h2 : x < 9223372036854775808) : wrapInt64 x = x := by
  unfold wrapInt64
  omega

theorem foldl_goAdd (env : Env) (modelName : GoString) (choices : List TextResponseChoice)
    (x : Int) :
    choices.foldl
        (fun completionTokens choice =>
          goAdd completionTokens (env.CountTokenText (env.StringContent choice.Message) modelName))
        (wrapInt64 x)
      = wrapInt64 (x + tokenSum env modelName choices) := by
  induction choices generalizing x with
  | nil => simp [tokenSum]
  | cons c cs ih =>
    rw [List.foldl_cons]
    have h : goAdd (wrapInt64 x) (env.CountTokenText (env.StringContent c.Message) modelName)
        = wrapInt64 (x + env.CountTokenText (env.StringContent c.Message) modelName) := by
      unfold goAdd
      exact wrapInt64_add_left _ _
    rw [h, ih]
    simp [tokenSum, add_assoc]

/-- The Go loop computes the sum of the token counts, in `int` arithmetic. -/
theorem countCompletionTokens_eq (env : Env) (modelName : GoString)
    (choices : List TextResponseChoice) :
    countCompletionTokens env modelName choices = wrapInt64 (tokenSum env modelName choices) := by
  have h := foldl_goAdd env modelName choices 0
  have h0 : wrapInt64 0 = 0 := by decide
  rw [h0, zero_add] at h
  exact h

/-- After a successful decode with empty error type, `Handler` either returns the usage of
`deriveUsage` and no error, or an error and no usage. -/
theorem Handler_usage (env : Env) (w : ResponseWriter) (fixedContent : GoString)
    (resp : Response) (promptTokens : Int) (modelName body : GoString) (tr : SlimTextResponse)
    (hread : resp.ReadAll = .ok body) (hclose : resp.Close = none)
    (hdec : env.unmarshalBody body = .ok tr) (herr : tr.Error.Type_ = []) :
    ((Handler env w fixedContent resp promptTokens modelName).err = none ∧
      (Handler env w fixedContent resp promptTokens modelName).usage
        = some (deriveUsage env promptTokens modelName tr).1) ∨
    ((Handler env w fixedContent resp promptTokens modelName).err ≠ none ∧
      (Handler env w fixedContent resp promptTokens modelName).usage = none) := by
  unfold Handler
  simp only [hread, hclose, hdec, herr, ne_eq, not_true_eq_false, if_false]
  split
  · split
    · right; simp [failWith]
    · split
      · right; simp [failWith]
      · split
        · right; simp [failWith]
        · left; simp
  · split
    · right; simp [failWith]
    · left; simp

theorem Header.Get_Set_self (h : Header) (k v : GoString) : (h.Set k v).Get k = some v := by
  simp [Header.Set, Header.Get]

theorem Header.Get_Set_ne (h : Header) {k k' : GoString} (v : GoString) (hne : k ≠ k') :
    (h.Set k v).Get k' = h.Get k' := by
  simp only [Header.Set, Header.Get]
  rw [List.find?_cons_of_neg _ (by simpa using hne), List.find?_filter]
  congr 2
  funext e
  by_cases he : e.1 = k'
  · simp [he, Ne.symm hne]
  · simp [he]

theorem foldl_Set_Get (l : Header) (k : GoString) (hl : ∀ e ∈ l, e.1 ≠ k) (wh : Header) :
    Header.Get (l.foldl (fun wh e => wh.Set e.1 e.2) wh) k = wh.Get k := by
  induction l generalizing wh with
  | nil => rfl
  | cons e l ih =>
    rw [List.foldl_cons, ih (fun x hx => hl x (List.mem_cons_of_mem _ hx))]
    exact Header.Get_Set_ne wh e.2 (hl e (List.mem_cons_self _ _))

/-- After `resp.Header.Set(k, v)` and the header copy, the client's header `k` is `v`. -/
theorem copyHeaders_Set_Get (w : ResponseWriter) (h : Header) (k v : GoString) :
    (copyHeaders w (h.Set k v)).Header.Get k = some v := by
  have hset : h.Set k v = (k, v) :: h.filter (fun e => e.1 ≠ k) := rfl
  rw [hset]
  simp only [copyHeaders, List.foldl_cons]
  rw [foldl_Set_Get _ k (by
    intro e he
    simpa using (List.mem_filter.mp he).2)]
  exact Header.Get_Set_self _ _ _

theorem rewriteChoices_ok (env : Env) (fixedContent : GoString)
    (choices : List TextResponseChoice)
    (hstr : ∀ c ∈ choices, ∃ enc,
      env.MarshalString (env.StringContent c.Message ++ ascii "\n\n" ++ fixedContent) = .ok enc) :
    ∃ choices', rewriteChoices env fixedContent choices = .ok choices' ∧
      List.Forall₂ (IsRewritten env fixedContent) choices choices' := by
  induction choices with
  | nil => exact ⟨[], rfl, List.Forall₂.nil⟩
  | cons c cs ih =>
    obtain ⟨enc, henc⟩ := hstr c (List.mem_cons_self _ _)
    obtain ⟨cs', hcs', hall⟩ := ih (fun x hx => hstr x (List.mem_cons_of_mem _ hx))
    refine ⟨withRawContent c enc :: cs', ?_, List.Forall₂.cons ⟨enc, henc, rfl⟩ hall⟩
    simp only [rewriteChoices, henc, hcs', withRawContent]

/-! ## Claims about `Handler` -/

/-- C8 (usage derivation).  For a body that decodes with empty error type and
`usage.total_tokens == 0`, whatever `promptTokens`, model name and tokenizer: when `Handler`
returns without error the returned usage has `prompt_tokens = promptTokens`,
`completion_tokens` the sum over the choices of `CountTokenText(content, modelName)` and
`total_tokens = prompt_tokens + completion_tokens` (sums in Go `int` arithmetic); and when it
returns an error (a failed re-encoding or client write) it returns no usage. -/
theorem c8_usage_derivation (env : Env) (w : ResponseWriter) (fixedContent : GoString)
    (resp : Response) (promptTokens : Int) (modelName body : GoString) (tr : SlimTextResponse)
    (hread : resp.ReadAll = .ok body) (hclose : resp.Close = none)
    (hdec : env.unmarshalBody body = .ok tr) (herr : tr.Error.Type_ = [])
    (htotal : tr.Usage.TotalTokens = 0) :
    ((Handler env w fixedContent resp promptTokens modelName).err = none →
      (Handler env w fixedContent resp promptTokens modelName).usage
        = some { PromptTokens := promptTokens
                 CompletionTokens := wrapInt64 (tokenSum env modelName tr.Choices)
                 TotalTokens := goAdd promptTokens
                   (wrapInt64 (tokenSum env modelName tr.Choices)) }) ∧
    ((Handler env w fixedContent resp promptTokens modelName).err ≠ none →
      (Handler env w fixedContent resp promptTokens modelName).usage = none) := by
  have hu : (deriveUsage env promptTokens modelName tr).1
      = { PromptTokens := promptTokens
          CompletionTokens := wrapInt64 (tokenSum env modelName tr.Choices)
          TotalTokens := goAdd promptTokens (wrapInt64 (tokenSum env modelName tr.Choices)) } := by
    simp [deriveUsage, htotal, countCompletionTokens_eq]
  rcases Handler_usage env w fixedContent resp promptTokens modelName body tr hread hclose hdec
    herr with ⟨h1, h2⟩ | ⟨h1, h2⟩
  · exact ⟨fun _ => by rw [h2, hu], fun h => absurd h1 h⟩
  · exact ⟨fun h => absurd h h1, fun _ => h2⟩

/-- C8 at the example of the specification: two choices tokenizing to 5 and 7, `P = 100`. -/
theorem c8_usage_derivation_witness :
    (Handler demoEnv emptyWriter [] (demoResponse twoChoiceBody 200) 100 (ascii "gpt-4")).err
        = none ∧
    (Handler demoEnv emptyWriter [] (demoResponse twoChoiceBody 200) 100 (ascii "gpt-4")).usage
        = some { PromptTokens := 100, CompletionTokens := 12, TotalTokens := 112 } :=
  ⟨by decide,
   ((c8_usage_derivation demoEnv emptyWriter [] (demoResponse twoChoiceBody 200) 100
      (ascii "gpt-4") twoChoiceBody
      { Choices := [{ Message := { Content := .str (ascii "Hello") } },
                    { Message := { Content := .str (ascii "Goodbye") } }]
        Usage := { PromptTokens := 0, CompletionTokens := 0, TotalTokens := 0 }
        Error := noError }
      rfl rfl (by decide) rfl rfl).1 (by decide)).trans (by decide)⟩

/-- C10 (error passthrough).  For a body that decodes with a non-empty error type and any
upstream status code, `Handler` returns an error carrying the decoded upstream error unchanged
and the upstream status code, no usage and an empty response text; it calls the tokenizer for
nothing, and leaves the client writer and the upstream headers as they were. -/
theorem c10_error_passthrough (env : Env) (w : ResponseWriter) (fixedContent : GoString)
    (resp : Response) (promptTokens : Int) (modelName body : GoString) (tr : SlimTextResponse)
    (hread : resp.ReadAll = .ok body) (hclose : resp.Close = none)
    (hdec : env.unmarshalBody body = .ok tr) (herr : tr.Error.Type_ ≠ []) :
    Handler env w fixedContent resp promptTokens modelName
      = { err := some { Error := tr.Error, StatusCode := resp.StatusCode }
          usage := none
          responseText := []
          writer := w
          respHeader := resp.Header
          tokenizerCalls := [] } := by
  unfold Handler
  simp [hread, hclose, hdec, herr]

/-- C10 at the example of the specification: an `invalid_request_error` body with status 400
and a configured trailer. -/
theorem c10_error_passthrough_witness :
    Handler demoEnv emptyWriter (ascii "Disclaimer") (demoResponse errorBody 400) 7 (ascii "gpt-4")
      = { err := some { Error := { Message := ascii "bad", Type_ := ascii "invalid_request_error"
                                   Param := [], Code := .nil }
                        StatusCode := 400 }
          usage := none
          responseText := []
          writer := emptyWriter
          respHeader := (demoResponse errorBody 400).Header
          tokenizerCalls := [] } :=
  c10_error_passthrough demoEnv emptyWriter (ascii "Disclaimer") (demoResponse errorBody 400) 7
    (ascii "gpt-4") errorBody
    { Choices := []
      Usage := { PromptTokens := 0, CompletionTokens := 0, TotalTokens := 0 }
      Error := { Message := ascii "bad", Type_ := ascii "invalid_request_error"
                 Param := [], Code := .nil } }
    rfl rfl (by decide) (by decide)

/-- C9 (non-streaming trailer injection), amended.  For a body that decodes with empty error
type, a non-empty trailer and a model name that starts with `gpt`, when the JSON encodings
succeed and the client accepts the write: the bytes written to the client are the encoding of
the document in which every choice's message content is the JSON encoding of the original
content followed by `"\n\n"` and the trailer, the status written is the upstream status, and the
`Content-Length` header written is the byte length of that encoding.  (For a model name that
does not start with `gpt` nothing is injected.) -/
theorem c9_trailer_injection (env : Env) (w : ResponseWriter) (fixedContent : GoString)
    (resp : Response) (promptTokens : Int) (modelName body : GoString) (tr : SlimTextResponse)
    (hread : resp.ReadAll = .ok body) (hclose : resp.Close = none)
    (hdec : env.unmarshalBody body = .ok tr) (herr : tr.Error.Type_ = [])
    (hfixed : fixedContent ≠ [])
    (hgpt : HasPrefix modelName (ascii "gpt") = true)
    (hstr : ∀ c ∈ tr.Choices, ∃ enc,
      env.MarshalString (env.StringContent c.Message ++ ascii "\n\n" ++ fixedContent) = .ok enc)
    (hbody : ∀ d, ∃ bytes, env.MarshalBody d = .ok bytes)
    (hcopy : ∀ b, env.Copy b = (b, none)) :
    ∃ choices bytes,
      List.Forall₂ (IsRewritten env fixedContent) tr.Choices choices ∧
      env.MarshalBody
          { Choices := choices, Usage := (deriveUsage env promptTokens modelName tr).1
            Error := tr.Error } = .ok bytes ∧
      (Handler env w fixedContent resp promptTokens modelName).err = none ∧
      (Handler env w fixedContent resp promptTokens modelName).writer.Body = w.Body ++ bytes ∧
      (Handler env w fixedContent resp promptTokens modelName).writer.Status
        = some resp.StatusCode ∧
      (Handler env w fixedContent resp promptTokens modelName).writer.Header.Get
          (ascii "Content-Length") = some (env.Itoa bytes.length) := by
  obtain ⟨choices, hchoices, hall⟩ := rewriteChoices_ok env fixedContent tr.Choices hstr
  obtain ⟨bytes, hbytes⟩ := hbody
    { Choices := choices, Usage := (deriveUsage env promptTokens modelName tr).1
      Error := tr.Error }
  refine ⟨choices, bytes, hall, hbytes, ?_⟩
  unfold Handler
  simp only [hread, hclose, hdec, herr, ne_eq, not_true_eq_false, if_false, hfixed,
    not_false_eq_true, decide_True, hgpt, Bool.and_self, if_true, hchoices, hbytes,
    writeResponse, hcopy]
  refine ⟨trivial, rfl, trivial, ?_⟩
  exact copyHeaders_Set_Get w resp.Header (ascii "Content-Length") (env.Itoa bytes.length)

/-- C9 amended, at the example of the specification: one choice `Hello`, trailer
`Disclaimer`, model `gpt-4`. -/
theorem c9_trailer_injection_witness :
    ∃ choices bytes,
      List.Forall₂ (IsRewritten demoEnv (ascii "Disclaimer"))
        [{ Message := { Content := .str (ascii "Hello") } }] choices ∧
      demoEnv.MarshalBody
          { Choices := choices
            Usage := (deriveUsage demoEnv 100 (ascii "gpt-4")
              { Choices := [{ Message := { Content := .str (ascii "Hello") } }]
                Usage := { PromptTokens := 0, CompletionTokens := 0, TotalTokens := 0 }
                Error := noError }).1
            Error := noError } = .ok bytes ∧
      (Handler demoEnv emptyWriter (ascii "Disclaimer") (demoResponse helloBody 200) 100
        (ascii "gpt-4")).err = none ∧
      (Handler demoEnv emptyWriter (ascii "Disclaimer") (demoResponse helloBody 200) 100
        (ascii "gpt-4")).writer.Body = emptyWriter.Body ++ bytes ∧
      (Handler demoEnv emptyWriter (ascii "Disclaimer") (demoResponse helloBody 200) 100
        (ascii "gpt-4")).writer.Status = some (demoResponse helloBody 200).StatusCode ∧
      (Handler demoEnv emptyWriter (ascii "Disclaimer") (demoResponse helloBody 200) 100
        (ascii "gpt-4")).writer.Header.Get (ascii "Content-Length")
        = some (demoEnv.Itoa bytes.length) :=
  c9_trailer_injection demoEnv emptyWriter (ascii "Disclaimer") (demoResponse helloBody 200) 100
    (ascii "gpt-4") helloBody
    { Choices := [{ Message := { Content := .str (ascii "Hello") } }]
      Usage := { PromptTokens := 0, CompletionTokens := 0, TotalTokens := 0 }
      Error := noError }
    rfl rfl (by decide) rfl (by decide) (by decide)
    (fun _ _ => ⟨_, rfl⟩) (fun _ => ⟨_, rfl⟩) (fun _ => rfl)

/-- C9 as stated fails for a model name that does not start with `gpt`: with trailer
`Disclaimer` and model `claude-3` the bytes written are the upstream body, whose choice
content is still `Hello`, and the `Content-Length` written is the upstream one. -/
theorem c9_no_injection_for_other_models :
    HasPrefix (ascii "claude-3") (ascii "gpt") = false ∧
    (Handler demoEnv emptyWriter (ascii "Disclaimer") (demoResponse helloBody 200) 100
      (ascii "claude-3")).err = none ∧
    (Handler demoEnv emptyWriter (ascii "Disclaimer") (demoResponse helloBody 200) 100
      (ascii "claude-3")).writer.Body = helloBody ∧
    (Handler demoEnv emptyWriter (ascii "Disclaimer") (demoResponse helloBody 200) 100
      (ascii "claude-3")).writer.Header.Get (ascii "Content-Length")
      = some (demoItoa helloBody.length) := by
  decide

/-- The example of the specification evaluated: with model `gpt-4` the choice content written
is `Hello\n\nDisclaimer` and the `Content-Length` written is the length of the new body. -/
theorem handler_hello_disclaimer :
    (Handler demoEnv emptyWriter (ascii "Disclaimer") (demoResponse helloBody 200) 100
      (ascii "gpt-4")).writer.Body
      = ascii ("\x7b\"choices\":[\x7b\"message\":\x7b\"content\":\"Hello\\n\\nDisclaimer\"\x7d\x7d]," ++
          "\"usage\":\x7b\"prompt_tokens\":100,\"completion_tokens\":5,\"total_tokens\":105\x7d\x7d") ∧
    (Handler demoEnv emptyWriter (ascii "Disclaimer") (demoResponse helloBody 200) 100
      (ascii "gpt-4")).writer.Header.Get (ascii "Content-Length") = some (ascii "130") := by
  set_option maxRecDepth 8000 in decide

/-! ## Facts about the line splitter -/

theorem newline_cases (R : GoString) :
    (10 : Byte) ∉ R ∨ ∃ l t, R = l ++ 10 :: t ∧ (10 : Byte) ∉ l := by
  induction R with
  | nil => left; simp
  | cons b r ih =>
    by_cases hb : b = 10
    · right
      exact ⟨[], r, by simp [hb], by simp⟩
    · rcases ih with h | ⟨l, t, h, hl⟩
      · left
        intro hm
        rcases List.mem_cons.mp hm with h1 | h1
        · exact hb h1.symm
        · exact h h1
      · right
        refine ⟨b :: l, t, by simp [h], ?_⟩
        intro hm
        rcases List.mem_cons.mp hm with h1 | h1
        · exact hb h1.symm
        · exact hl h1

/-- Induction along the lines of an input: nothing left, a last line without newline, or a
first line followed by a newline and the rest. -/
theorem newline_induction {P : GoString → Prop} (hnil : P [])
    (hsingle : ∀ R, R ≠ [] → (10 : Byte) ∉ R → P R)
    (hstep : ∀ l t, (10 : Byte) ∉ l → P t → P (l ++ 10 :: t)) (R : GoString) : P R := by
  suffices h : ∀ n (R : GoString), R.length ≤ n → P R from h R.length R (le_refl _)
  intro n
  induction n with
  | zero =>
    intro R hR
    have : R = [] := List.length_eq_zero.mp (Nat.le_zero.mp hR)
    rw [this]; exact hnil
  | succ n ih =>
    intro R hR
    rcases newline_cases R with h | ⟨l, t, h, hl⟩
    · by_cases hne : R = []
      · rw [hne]; exact hnil
      · exact hsingle R hne h
    · rw [h]
      refine hstep l t hl (ih t ?_)
      rw [h] at hR
      simp at hR
      omega

theorem indexNewline_of_not_mem {d : GoString} (h : (10 : Byte) ∉ d) : indexNewline d = none := by
  induction d with
  | nil => rfl
  | cons b r ih =>
    have hb : b ≠ 10 := fun hb => h (by simp [hb])
    have hr : (10 : Byte) ∉ r := fun hm => h (List.mem_cons_of_mem _ hm)
    simp [indexNewline, hb, ih hr]

theorem indexNewline_first {l : GoString} (t : GoString) (h : (10 : Byte) ∉ l) :
    indexNewline (l ++ 10 :: t) = some l.length := by
  induction l with
  | nil => simp [indexNewline]
  | cons b r ih =>
    have hb : b ≠ 10 := fun hb => h (by simp [hb])
    have hr : (10 : Byte) ∉ r := fun hm => h (List.mem_cons_of_mem _ hm)
    simp [indexNewline, hb, ih hr]

theorem Split_first {l : GoString} (t : GoString) (atEOF : Bool) (h : (10 : Byte) ∉ l) :
    Split (l ++ 10 :: t) atEOF = (l.length + 1, some l) := by
  simp [Split, indexNewline_first t h]

theorem Split_last {R : GoString} (hne : R ≠ []) (h : (10 : Byte) ∉ R) :
    Split R true = (R.length, some R) := by
  simp [Split, indexNewline_of_not_mem h, hne]

theorem Split_more {R : GoString} (h : (10 : Byte) ∉ R) : Split R false = (0, none) := by
  simp [Split, indexNewline_of_not_mem h]

theorem Split_nil_eof : Split [] true = (0, none) := by
  simp [Split]

theorem nextToken_nil : nextToken [] = none := by
  simp [nextToken]

theorem nextToken_first {l : GoString} (t : GoString) (h : (10 : Byte) ∉ l) :
    nextToken (l ++ 10 :: t) = some (l, t) := by
  simp [nextToken, indexNewline_first t h]

theorem nextToken_last {R : GoString} (hne : R ≠ []) (h : (10 : Byte) ∉ R) :
    nextToken R = some (R, []) := by
  simp [nextToken, indexNewline_of_not_mem h, hne]

theorem referenceLines_nil : referenceLines [] = [] := by
  decide

theorem referenceLines_last {R : GoString} (hne : R ≠ []) (h : (10 : Byte) ∉ R) :
    referenceLines R = [R] := by
  have hs : R.splitOn 10 = [R] := by
    unfold List.splitOn
    exact List.splitOnP_eq_single _ _ (fun x hx => by
      intro hx10
      have hx' : x = 10 := by simpa using hx10
      exact h (by rw [← hx']; exact hx))
  simp [referenceLines, hs, hne]

theorem referenceLines_first {l : GoString} (t : GoString) (h : (10 : Byte) ∉ l) :
    referenceLines (l ++ 10 :: t) = l :: referenceLines t := by
  have hs : (l ++ 10 :: t).splitOn 10 = l :: t.splitOn 10 := by
    unfold List.splitOn
    exact List.splitOnP_first _ _ (fun x hx => by
      intro hx10
      have hx' : x = 10 := by simpa using hx10
      exact h (by rw [← hx']; exact hx)) 10 (by simp) t
  have hne : t.splitOn 10 ≠ [] := by
    unfold List.splitOn
    exact List.splitOnP_ne_nil _ _
  unfold referenceLines
  rw [hs]
  cases hps : t.splitOn 10 with
  | nil => exact absurd hps hne
  | cons q qs =>
    rw [List.getLast?_cons_cons, List.dropLast_cons₂]
    split <;> rfl

/-- What `nextToken` takes off the input is the first reference line. -/
theorem nextToken_some {R tok rest : GoString} (h : nextToken R = some (tok, rest)) :
    referenceLines R = tok :: referenceLines rest ∧ rest.length < R.length := by
  rcases newline_cases R with hn | ⟨l, t, hR, hl⟩
  · by_cases hne : R = []
    · rw [hne, nextToken_nil] at h
      exact Option.noConfusion h
    · rw [nextToken_last hne hn] at h
      simp only [Option.some.injEq, Prod.mk.injEq] at h
      obtain ⟨h1, h2⟩ := h
      subst h1 h2
      refine ⟨by rw [referenceLines_last hne hn, referenceLines_nil], ?_⟩
      exact List.length_pos.mpr hne
  · rw [hR, nextToken_first t hl] at h
    simp only [Option.some.injEq, Prod.mk.injEq] at h
    obtain ⟨h1, h2⟩ := h
    subst h1 h2
    refine ⟨by rw [hR, referenceLines_first _ hl], ?_⟩
    rw [hR]
    simp
    omega

theorem nextToken_none {R : GoString} (h : nextToken R = none) : R = [] := by
  rcases newline_cases R with hn | ⟨l, t, hR, hl⟩
  · by_contra hne
    rw [nextToken_last hne hn] at h
    exact Option.noConfusion h
  · rw [hR, nextToken_first t hl] at h
    exact Option.noConfusion h

theorem referenceLines_no_newline (R : GoString) :
    ∀ line ∈ referenceLines R, (10 : Byte) ∉ line := by
  refine newline_induction (P := fun R => ∀ line ∈ referenceLines R, (10 : Byte) ∉ line)
    ?_ ?_ ?_ R
  · beta_reduce
    rw [referenceLines_nil]; simp
  · intro R hne hn line hl
    rw [referenceLines_last hne hn, List.mem_singleton] at hl
    rw [hl]; exact hn
  · intro l t hl ih line hline
    rw [referenceLines_first t hl] at hline
    rcases List.mem_cons.mp hline with h | h
    · rw [h]; exact hl
    · exact ih line h

theorem getLast?_first_line (l t : GoString) :
    (l ++ 10 :: t).getLast? = if t = [] then some 10 else t.getLast? := by
  by_cases ht : t = []
  · simp [ht]
  · rw [if_neg ht, List.getLast?_append_of_ne_nil _ (List.cons_ne_nil _ _)]
    cases t with
    | nil => exact absurd rfl ht
    | cons b r => rw [List.getLast?_cons_cons]

theorem referenceLines_ne_nil {R : GoString} (h : R ≠ []) : referenceLines R ≠ [] := by
  rcases newline_cases R with hn | ⟨l, t, hR, hl⟩
  · rw [referenceLines_last h hn]; simp
  · rw [hR, referenceLines_first t hl]; simp

/-- Rejoining the reference lines gives back the input: each line followed by a newline when
the input is empty or ends with one, lines separated by newlines otherwise. -/
theorem referenceLines_roundtrip (R : GoString) :
    ((R = [] ∨ R.getLast? = some 10) →
      (referenceLines R).flatMap (fun line => line ++ [10]) = R) ∧
    ((R ≠ [] ∧ R.getLast? ≠ some 10) →
      ([10] : GoString).intercalate (referenceLines R) = R) := by
  refine newline_induction
    (P := fun R => ((R = [] ∨ R.getLast? = some 10) →
        (referenceLines R).flatMap (fun line => line ++ [10]) = R) ∧
      ((R ≠ [] ∧ R.getLast? ≠ some 10) →
        ([10] : GoString).intercalate (referenceLines R) = R)) ?_ ?_ ?_ R
  · exact ⟨fun _ => by rw [referenceLines_nil]; rfl, fun h => absurd rfl h.1⟩
  · intro R hne hn
    beta_reduce
    constructor
    · intro h
      rcases h with h | h
      · exact absurd h hne
      · exact absurd (List.mem_of_getLast?_eq_some h) hn
    · intro _
      rw [referenceLines_last hne hn]
      simp [List.intercalate]
  · intro l t hl ih
    beta_reduce at ih ⊢
    rw [referenceLines_first t hl, getLast?_first_line]
    constructor
    · intro h
      have ht : t = [] ∨ t.getLast? = some 10 := by
        rcases h with h | h
        · simp at h
        · by_cases ht : t = []
          · exact Or.inl ht
          · rw [if_neg ht] at h; exact Or.inr h
      rw [List.flatMap_cons, ih.1 ht]
      simp
    · intro h
      have ht : t ≠ [] := by
        intro ht
        exact h.2 (by simp [ht])
      have ht' : t.getLast? ≠ some 10 := by
        have := h.2
        rwa [if_neg ht] at this
      have hrest := ih.2 ⟨ht, ht'⟩
      cases hps : referenceLines t with
      | nil => exact absurd hps (referenceLines_ne_nil ht)
      | cons q qs =>
        rw [hps] at hrest
        rw [← hrest]
        simp [List.intercalate, List.intersperse]

theorem cr_eq : ascii "\r" = [13] := by decide

/-! ## Claims about the consumer and the splitter -/

/-- C12 (truncation rule).  For every value handed to the consumer, the text rendered is the
12-byte literal `data: [DONE]` when the value starts with `data: [DONE]`, whatever follows,
and otherwise the value without one final `\r` when it ends with one, the value unchanged when
it does not. -/
theorem c12_truncation_rule (data : GoString) :
    render data
      = if HasPrefix data sentinel then ascii "data: [DONE]"
        else if data.getLast? = some 13 then data.dropLast
        else data := by
  by_cases hp : HasPrefix data sentinel = true
  · rw [if_pos hp]
    exact (render_eq_sentinel_iff data).mpr hp
  · rw [if_neg hp]
    have hp' : HasPrefix data sentinel = false := by simpa using hp
    simp only [render, hp', Bool.false_eq_true, if_false, TrimSuffix, cr_eq]
    have hiff : ([13] : GoString).isSuffixOf data = true ↔ data.getLast? = some 13 := by
      rw [List.isSuffixOf_iff_suffix, List.getLast?_eq_some_iff]
      constructor
      · rintro ⟨t, ht⟩; exact ⟨t, ht.symm⟩
      · rintro ⟨t, ht⟩; exact ⟨t, ht.symm⟩
    by_cases hl : data.getLast? = some 13
    · rw [if_pos (hiff.mpr hl), if_pos hl, List.dropLast_eq_take]
      rfl
    · rw [if_neg (fun h => hl (hiff.mp h)), if_neg hl]

/-! ## More facts about `Handler` -/

theorem lastContent_eq (env : Env) (choices : List TextResponseChoice) :
    lastContent env choices = lastChoiceContent env choices := by
  unfold lastContent lastChoiceContent
  suffices h : ∀ (init : GoString) (cs : List TextResponseChoice),
      cs.foldl (fun _ choice => env.StringContent choice.Message) init
        = match cs.getLast? with
          | none => init
          | some choice => env.StringContent choice.Message from h [] choices
  intro init cs
  induction cs generalizing init with
  | nil => rfl
  | cons c cs ih =>
    rw [List.foldl_cons, ih]
    cases cs with
    | nil => rfl
    | cons d ds =>
      rw [List.getLast?_cons_cons]
      cases hl : (d :: ds).getLast? with
      | none => simp at hl
      | some x => rfl

/-- After a successful decode with empty error type, the tokenizer calls are those of
`deriveUsage`, and `Handler` returns either no error and the text extracted before any
injection, or an error and the empty text. -/
theorem Handler_text (env : Env) (w : ResponseWriter) (fixedContent : GoString)
    (resp : Response) (promptTokens : Int) (modelName body : GoString) (tr : SlimTextResponse)
    (hread : resp.ReadAll = .ok body) (hclose : resp.Close = none)
    (hdec : env.unmarshalBody body = .ok tr) (herr : tr.Error.Type_ = []) :
    (Handler env w fixedContent resp promptTokens modelName).tokenizerCalls
        = (deriveUsage env promptTokens modelName tr).2 ∧
    (((Handler env w fixedContent resp promptTokens modelName).err = none ∧
      (Handler env w fixedContent resp promptTokens modelName).responseText
        = if HasPrefix modelName (ascii "gpt") then lastContent env tr.Choices else []) ∨
    ((Handler env w fixedContent resp promptTokens modelName).err ≠ none ∧
      (Handler env w fixedContent resp promptTokens modelName).responseText = [])) := by
  unfold Handler
  simp only [hread, hclose, hdec, herr, ne_eq, not_true_eq_false, if_false]
  split
  · split
    · exact ⟨rfl, Or.inr (by simp [failWith])⟩
    · split
      · exact ⟨rfl, Or.inr (by simp [failWith])⟩
      · split
        · exact ⟨rfl, Or.inr (by simp [failWith])⟩
        · exact ⟨rfl, Or.inl (by simp)⟩
  · split
    · exact ⟨rfl, Or.inr (by simp [failWith])⟩
    · exact ⟨rfl, Or.inl (by simp)⟩

/-! ## More claims about `Handler` -/

/-- C11 (no-trailer passthrough).  For a body that decodes with empty error type, with the
empty trailer and a client that accepts the write, `Handler` writes exactly the bytes read
from upstream, with the upstream status code and the upstream headers, and returns no error;
this holds for every model name and also when the returned usage has been recomputed. -/
theorem c11_no_trailer_passthrough (env : Env) (w : ResponseWriter) (resp : Response)
    (promptTokens : Int) (modelName body : GoString) (tr : SlimTextResponse)
    (hread : resp.ReadAll = .ok body) (hclose : resp.Close = none)
    (hdec : env.unmarshalBody body = .ok tr) (herr : tr.Error.Type_ = [])
    (hcopy : env.Copy body = (body, none)) :
    Handler env w [] resp promptTokens modelName
      = { err := none
          usage := some (deriveUsage env promptTokens modelName tr).1
          responseText :=
            if HasPrefix modelName (ascii "gpt") then lastContent env tr.Choices else []
          writer := { Header := (copyHeaders w resp.Header).Header
                      Status := some resp.StatusCode
                      Body := w.Body ++ body }
          respHeader := resp.Header
          tokenizerCalls := (deriveUsage env promptTokens modelName tr).2 } := by
  unfold Handler
  simp [hread, hclose, hdec, herr, writeResponse, hcopy, copyHeaders]

/-- C11 at the two-choice body without usage: the usage returned is recomputed, the bytes
written are the upstream body. -/
theorem c11_no_trailer_passthrough_witness :
    Handler demoEnv emptyWriter [] (demoResponse twoChoiceBody 200) 100 (ascii "gpt-4")
      = { err := none
          usage := some (deriveUsage demoEnv 100 (ascii "gpt-4") twoChoiceResponse).1
          responseText :=
            if HasPrefix (ascii "gpt-4") (ascii "gpt") then
              lastContent demoEnv twoChoiceResponse.Choices
            else []
          writer := { Header := (copyHeaders emptyWriter (demoResponse twoChoiceBody 200).Header).Header
                      Status := some (demoResponse twoChoiceBody 200).StatusCode
                      Body := emptyWriter.Body ++ twoChoiceBody }
          respHeader := (demoResponse twoChoiceBody 200).Header
          tokenizerCalls := (deriveUsage demoEnv 100 (ascii "gpt-4") twoChoiceResponse).2 } :=
  c11_no_trailer_passthrough demoEnv emptyWriter (demoResponse twoChoiceBody 200) 100
    (ascii "gpt-4") twoChoiceBody twoChoiceResponse rfl rfl (by decide) rfl rfl

/-- C15 (upstream usage is trusted).  For a body that decodes with empty error type and
`usage.total_tokens != 0`, whatever `promptTokens` is passed: the tokenizer is never called;
when `Handler` returns without error the returned usage is the upstream usage, field for
field, whether or not its total is the sum of its parts; when it returns an error it returns
no usage. -/
theorem c15_upstream_usage_trusted (env : Env) (w : ResponseWriter) (fixedContent : GoString)
    (resp : Response) (promptTokens : Int) (modelName body : GoString) (tr : SlimTextResponse)
    (hread : resp.ReadAll = .ok body) (hclose : resp.Close = none)
    (hdec : env.unmarshalBody body = .ok tr) (herr : tr.Error.Type_ = [])
    (htotal : tr.Usage.TotalTokens ≠ 0) :
    (Handler env w fixedContent resp promptTokens modelName).tokenizerCalls = [] ∧
    ((Handler env w fixedContent resp promptTokens modelName).err = none →
      (Handler env w fixedContent resp promptTokens modelName).usage = some tr.Usage) ∧
    ((Handler env w fixedContent resp promptTokens modelName).err ≠ none →
      (Handler env w fixedContent resp promptTokens modelName).usage = none) := by
  have hu : deriveUsage env promptTokens modelName tr = (tr.Usage, []) := by
    simp [deriveUsage, htotal]
  obtain ⟨hcalls, _⟩ := Handler_text env w fixedContent resp promptTokens modelName body tr
    hread hclose hdec herr
  refine ⟨by rw [hcalls, hu], ?_⟩
  rcases Handler_usage env w fixedContent resp promptTokens modelName body tr hread hclose hdec
    herr with ⟨h1, h2⟩ | ⟨h1, h2⟩
  · exact ⟨fun _ => by rw [h2, hu], fun h => absurd h1 h⟩
  · exact ⟨fun h => absurd h h1, fun _ => h2⟩

/-- C15 at a body whose upstream usage is `{3, 4, 9}`, with `promptTokens = 100`. -/
theorem c15_upstream_usage_trusted_witness :
    (Handler usageEnv emptyWriter (ascii "Disclaimer") (demoResponse usageBody 200) 100
      (ascii "gpt-4")).tokenizerCalls = [] ∧
    (Handler usageEnv emptyWriter (ascii "Disclaimer") (demoResponse usageBody 200) 100
      (ascii "gpt-4")).usage
      = some { PromptTokens := 3, CompletionTokens := 4, TotalTokens := 9 } :=
  ⟨(c15_upstream_usage_trusted usageEnv emptyWriter (ascii "Disclaimer")
      (demoResponse usageBody 200) 100 (ascii "gpt-4") usageBody usageResponse
      rfl rfl (by decide) rfl (by decide)).1,
   (c15_upstream_usage_trusted usageEnv emptyWriter (ascii "Disclaimer")
      (demoResponse usageBody 200) 100 (ascii "gpt-4") usageBody usageResponse
      rfl rfl (by decide) rfl (by decide)).2.1 (by decide)⟩

/-- C20 (returned response text).  For a body that decodes with empty error type: when
`Handler` returns without error, the text returned is the original message content of the
last choice if the model name starts with `gpt` (the empty text when there is no choice) and
the empty text for every other model name, and the usage returned is the one derived from the
original contents; the tokenizer is called on the original contents.  None of these depends
on the trailer.  When `Handler` returns an error the text returned is empty. -/
theorem c20_returned_response_text (env : Env) (w : ResponseWriter) (fixedContent : GoString)
    (resp : Response) (promptTokens : Int) (modelName body : GoString) (tr : SlimTextResponse)
    (hread : resp.ReadAll = .ok body) (hclose : resp.Close = none)
    (hdec : env.unmarshalBody body = .ok tr) (herr : tr.Error.Type_ = []) :
    ((Handler env w fixedContent resp promptTokens modelName).err = none →
      (Handler env w fixedContent resp promptTokens modelName).responseText
        = (if HasPrefix modelName (ascii "gpt") then lastChoiceContent env tr.Choices else []) ∧
      (Handler env w fixedContent resp promptTokens modelName).usage
        = some (deriveUsage env promptTokens modelName tr).1) ∧
    (Handler env w fixedContent resp promptTokens modelName).tokenizerCalls
        = (deriveUsage env promptTokens modelName tr).2 ∧
    ((Handler env w fixedContent resp promptTokens modelName).err ≠ none →
      (Handler env w fixedContent resp promptTokens modelName).responseText = []) := by
  obtain ⟨hcalls, htext⟩ := Handler_text env w fixedContent resp promptTokens modelName body tr
    hread hclose hdec herr
  have husage := Handler_usage env w fixedContent resp promptTokens modelName body tr hread
    hclose hdec herr
  refine ⟨?_, hcalls, ?_⟩
  · intro hok
    constructor
    · rcases htext with ⟨_, h2⟩ | ⟨h1, _⟩
      · rw [h2, lastContent_eq]
      · exact absurd hok h1
    · rcases husage with ⟨_, h2⟩ | ⟨h1, _⟩
      · exact h2
      · exact absurd hok h1
  · intro hbad
    rcases htext with ⟨h1, _⟩ | ⟨_, h2⟩
    · exact absurd h1 hbad
    · exact h2

/-- C20 at the two-choice body with trailer `Disclaimer` and model `gpt-4`: the text returned
is `Goodbye`, the last original content, and the completion count is 5 + 7. -/
theorem c20_returned_response_text_witness :
    (Handler demoEnv emptyWriter (ascii "Disclaimer") (demoResponse twoChoiceBody 200) 100
      (ascii "gpt-4")).responseText = ascii "Goodbye" ∧
    (Handler demoEnv emptyWriter (ascii "Disclaimer") (demoResponse twoChoiceBody 200) 100
      (ascii "gpt-4")).usage
      = some { PromptTokens := 100, CompletionTokens := 12, TotalTokens := 112 } :=
  ⟨((c20_returned_response_text demoEnv emptyWriter (ascii "Disclaimer")
      (demoResponse twoChoiceBody 200) 100 (ascii "gpt-4") twoChoiceBody twoChoiceResponse
      rfl rfl (by decide) rfl).1 (by decide)).1.trans (by decide),
   ((c20_returned_response_text demoEnv emptyWriter (ascii "Disclaimer")
      (demoResponse twoChoiceBody 200) 100 (ascii "gpt-4") twoChoiceBody twoChoiceResponse
      rfl rfl (by decide) rfl).1 (by decide)).2.trans (by decide)⟩

/-! ## More facts about the scan loop -/

theorem decodedDataLine_of_kept {env : Env} {m : RelayMode} {d : GoString}
    (hk : kept env m d = true) (hp : HasPrefix d dataPrefix = true) :
    decodedDataLine env m d = true := by
  simp only [kept, hp, Bool.not_true, Bool.false_or, Bool.and_eq_true, decide_eq_true_eq] at hk
  simp [decodedDataLine, hk.1, hk.2, hp]

/-- With the injection flag set, lines that are not decoded data lines change nothing and
nothing is sent. -/
theorem scanLoop_after_stop (env : Env) (m : RelayMode) (after : List GoString) (u : Vars)
    (hu : u.needInjectFixedContent = true)
    (hall : ∀ l ∈ beforeSentinel after, decodedDataLine env m l = false) :
    scanLoop env m after u = (u, []) := by
  induction after with
  | nil => rfl
  | cons d ds ih =>
    rcases loopBody_cases env m u d with ⟨_, hb⟩ | ⟨hs, _, hb⟩ | ⟨hs, _, _, hb⟩ |
        ⟨hs, hk, hp, _⟩
    · rw [scanLoop_cons_stop env m _ hb]
    · rw [beforeSentinel_cons_ne hs] at hall
      rw [scanLoop_cons_next env m _ hb, ih (fun l hl => hall l (List.mem_cons_of_mem _ hl))]
      rfl
    · rw [beforeSentinel_cons_ne hs] at hall
      rw [hu] at hb
      rw [scanLoop_cons_next env m _ hb, ih (fun l hl => hall l (List.mem_cons_of_mem _ hl))]
      rfl
    · rw [beforeSentinel_cons_ne hs] at hall
      have := hall d (List.mem_cons_self _ _)
      rw [decodedDataLine_of_kept hk hp] at this
      exact Bool.noConfusion this

theorem scanLoop_stop_then_quiet (env : Env) (m : RelayMode) (stopLine : GoString)
    (after : List GoString) (hstop : isStopLine env m stopLine = true)
    (hall : ∀ l ∈ beforeSentinel after, decodedDataLine env m l = false)
    (pre : List GoString) (v : Vars) :
    scanLoop env m (pre ++ stopLine :: after) v = scanLoop env m (pre ++ [stopLine]) v := by
  induction pre generalizing v with
  | nil =>
    rw [List.nil_append, List.nil_append]
    rcases loopBody_cases env m v stopLine with ⟨_, hb⟩ | ⟨_, hk, _⟩ | ⟨_, _, hp, _⟩ |
        ⟨_, _, _, w, hw, hb⟩
    · rw [scanLoop_cons_stop env m _ hb, scanLoop_cons_stop env m _ hb]
    · rw [isStopLine_kept hstop] at hk
      exact Bool.noConfusion hk
    · simp [isStopLine, hp] at hstop
    · have hfin : finishesWithStop env m (stopLine.drop 6) = true := by
        simp only [isStopLine, Bool.and_eq_true] at hstop
        exact hstop.2
      have hn : w.needInjectFixedContent = true := by
        rw [(switchRelayMode_some hw).1, hfin, Bool.or_true]
      rw [if_pos hn] at hb
      rw [scanLoop_cons_next env m _ hb, scanLoop_cons_next env m _ hb,
        scanLoop_after_stop env m after { w with stopMessage := stopLine } hn hall,
        scanLoop_nil]
  | cons d pre ih =>
    rw [List.cons_append, List.cons_append]
    cases h : loopBody env m v d with
    | stop w => rw [scanLoop_cons_stop env m _ h, scanLoop_cons_stop env m _ h]
    | next w out => rw [scanLoop_cons_next env m _ h, scanLoop_cons_next env m _ h, ih]

theorem chatChoice_toolCount (env : Env) (v : Vars) (c : ChatCompletionsStreamResponseChoice) :
    (chatChoice env v c).toolCount = max v.toolCount (toolCallsOf c) := by
  unfold chatChoice toolCallsOf
  cases c.Delta.ToolCalls with
  | none => simp only; split <;> simp
  | some tools =>
    simp only
    split <;> split <;> simp <;> omega

theorem foldl_chatChoice_toolCount (env : Env) (cs : List ChatCompletionsStreamResponseChoice)
    (v : Vars) :
    (cs.foldl (chatChoice env) v).toolCount
      = max v.toolCount ((cs.map toolCallsOf).foldr max 0) := by
  induction cs generalizing v with
  | nil => simp
  | cons c cs ih =>
    rw [List.foldl_cons, ih, chatChoice_toolCount]
    simp [Nat.max_assoc]

theorem foldl_completionsChoice_toolCount (cs : List CompletionsStreamResponseChoice)
    (v : Vars) : (cs.foldl completionsChoice v).toolCount = v.toolCount := by
  induction cs generalizing v with
  | nil => rfl
  | cons c cs ih =>
    rw [List.foldl_cons, ih]
    unfold completionsChoice
    split <;> rfl

theorem decodedIncrements_cons_sentinel (env : Env) (ds : List GoString) :
    decodedIncrements env (sentinel :: ds) = [] := by
  simp [decodedIncrements, beforeSentinel_cons_sentinel]

theorem decodedIncrements_cons_none (env : Env) {d : GoString} (ds : List GoString)
    (hs : d ≠ sentinel)
    (hd : (if 6 ≤ d.length ∧ HasPrefix d dataPrefix = true then env.unmarshalChat (d.drop 6)
      else none) = none) :
    decodedIncrements env (d :: ds) = decodedIncrements env ds := by
  simp only [decodedIncrements, beforeSentinel_cons_ne hs, List.filterMap_cons, hd]

theorem decodedIncrements_cons_some (env : Env) {d : GoString} (ds : List GoString)
    {r : ChatCompletionsStreamResponse} (hs : d ≠ sentinel)
    (hd : (if 6 ≤ d.length ∧ HasPrefix d dataPrefix = true then env.unmarshalChat (d.drop 6)
      else none) = some r) :
    decodedIncrements env (d :: ds) = r :: decodedIncrements env ds := by
  simp only [decodedIncrements, beforeSentinel_cons_ne hs, List.filterMap_cons, hd]

/-- In ChatCompletions mode the tool count after the loop is the largest per-choice number of
tool-call entries among the decoded increments, or the count on entry if that is larger. -/
theorem scanLoop_toolCount_chat (env : Env) (lines : List GoString) (v : Vars) :
    (scanLoop env .ChatCompletions lines v).1.toolCount
      = max v.toolCount (largestToolCalls env lines) := by
  induction lines generalizing v with
  | nil => simp [scanLoop_nil, largestToolCalls, decodedIncrements, beforeSentinel]
  | cons d ds ih =>
    rcases loopBody_cases env .ChatCompletions v d with ⟨hs, hb⟩ | ⟨hs, hk, hb⟩ |
        ⟨hs, _, hp, hb⟩ | ⟨hs, hk, hp, w, hw, hb⟩
    · rw [scanLoop_cons_stop env _ _ hb, hs]
      simp [largestToolCalls, decodedIncrements_cons_sentinel]
    · have hnone : (if 6 ≤ d.length ∧ HasPrefix d dataPrefix = true then
          env.unmarshalChat (d.drop 6) else none) = none := by
        split
        · next hc =>
          have hdec : decodes env .ChatCompletions (d.drop 6) = false := by
            simpa [kept, hc.1, hc.2] using hk
          simpa [decodes] using hdec
        · rfl
      rw [scanLoop_cons_next env _ _ hb]
      simp only [largestToolCalls, decodedIncrements_cons_none env ds hs hnone]
      exact ih v
    · have hnone : (if 6 ≤ d.length ∧ HasPrefix d dataPrefix = true then
          env.unmarshalChat (d.drop 6) else none) = none := by
        simp [hp]
      rw [scanLoop_cons_next env _ _ hb]
      simp only [largestToolCalls, decodedIncrements_cons_none env ds hs hnone]
      exact ih v
    · simp only [switchRelayMode] at hw
      cases hu : env.unmarshalChat (d.drop 6) with
      | none => simp [hu] at hw
      | some r =>
        simp only [hu, Option.some.injEq] at hw
        have hsome : (if 6 ≤ d.length ∧ HasPrefix d dataPrefix = true then
            env.unmarshalChat (d.drop 6) else none) = some r := by
          simp [length_of_hasPrefix hp, hp, hu]
        have hwc : w.toolCount = max v.toolCount (largestInIncrement r) := by
          rw [← hw]
          exact foldl_chatChoice_toolCount env r.Choices v
        have hgoal : max w.toolCount (largestToolCalls env ds)
            = max v.toolCount (largestToolCalls env (d :: ds)) := by
          simp only [largestToolCalls, decodedIncrements_cons_some env ds hs hsome,
            List.map_cons, List.foldr_cons]
          rw [hwc, Nat.max_assoc]
        cases hn : w.needInjectFixedContent with
        | true =>
          rw [if_pos hn] at hb
          rw [scanLoop_cons_next env _ _ hb, ih]
          exact hgoal
        | false =>
          rw [if_neg (by simp [hn])] at hb
          rw [scanLoop_cons_next env _ _ hb, ih]
          exact hgoal

theorem scanLoop_toolCount_completions (env : Env) (lines : List GoString) (v : Vars) :
    (scanLoop env .Completions lines v).1.toolCount = v.toolCount := by
  induction lines generalizing v with
  | nil => rfl
  | cons d ds ih =>
    rcases loopBody_cases env .Completions v d with ⟨_, hb⟩ | ⟨_, _, hb⟩ |
        ⟨_, _, _, hb⟩ | ⟨_, _, _, w, hw, hb⟩
    · rw [scanLoop_cons_stop env _ _ hb]
    · rw [scanLoop_cons_next env _ _ hb]; exact ih v
    · rw [scanLoop_cons_next env _ _ hb]; exact ih v
    · simp only [switchRelayMode] at hw
      cases hu : env.unmarshalCompletions (d.drop 6) with
      | none => simp [hu] at hw
      | some r =>
        simp only [hu, Option.some.injEq] at hw
        have hwc : w.toolCount = v.toolCount := by
          rw [← hw]
          exact foldl_completionsChoice_toolCount r.Choices v
        cases hn : w.needInjectFixedContent with
        | true =>
          rw [if_pos hn] at hb
          rw [scanLoop_cons_next env _ _ hb, ih]
          exact hwc
        | false =>
          rw [if_neg (by simp [hn])] at hb
          rw [scanLoop_cons_next env _ _ hb, ih]
          exact hwc

theorem stopDecoded_cons_sentinel (env : Env) (m : RelayMode) (ds : List GoString) :
    stopDecoded env m (sentinel :: ds) = false := by
  simp [stopDecoded, beforeSentinel_cons_sentinel]

theorem stopDecoded_cons (env : Env) (m : RelayMode) {d : GoString} (hs : d ≠ sentinel)
    (ds : List GoString) :
    stopDecoded env m (d :: ds) = (isStopLine env m d || stopDecoded env m ds) := by
  simp [stopDecoded, beforeSentinel_cons_ne hs]

/-- The injection flag after the loop says whether a stop line was decoded before the
sentinel; when it is set a non-empty upstream line is stashed; every value sent by the loop is
an upstream line. -/
theorem scanLoop_trailer (env : Env) (m : RelayMode) (lines : List GoString) :
    ∀ v : Vars, (v.needInjectFixedContent = true → v.stopMessage ≠ []) →
      (scanLoop env m lines v).1.needInjectFixedContent
          = (v.needInjectFixedContent || stopDecoded env m lines) ∧
      ((scanLoop env m lines v).1.needInjectFixedContent = true →
          (scanLoop env m lines v).1.stopMessage ≠ []) ∧
      (∀ l ∈ (scanLoop env m lines v).2, l ∈ lines) ∧
      ((scanLoop env m lines v).1.stopMessage = v.stopMessage ∨
          (scanLoop env m lines v).1.stopMessage ∈ lines) := by
  induction lines with
  | nil =>
    intro v hv
    refine ⟨?_, hv, ?_, Or.inl rfl⟩
    · simp [scanLoop_nil, stopDecoded, beforeSentinel]
    · simp [scanLoop_nil]
  | cons d ds ih =>
    intro v hv
    rcases loopBody_cases env m v d with ⟨hs, hb⟩ | ⟨hs, hk, hb⟩ | ⟨hs, _, hp, hb⟩ |
        ⟨hs, _, hp, w, hw, hb⟩
    · rw [scanLoop_cons_stop env m _ hb, hs, stopDecoded_cons_sentinel]
      exact ⟨by simp, hv, by simp, Or.inl rfl⟩
    · have hnot : isStopLine env m d = false := by
        cases h : isStopLine env m d with
        | false => rfl
        | true => rw [isStopLine_kept h] at hk; exact Bool.noConfusion hk
      obtain ⟨i1, i2, i3, i4⟩ := ih v hv
      rw [scanLoop_cons_next env m _ hb, stopDecoded_cons env m hs, hnot]
      refine ⟨by simpa using i1, i2, ?_, ?_⟩
      · intro l hl
        exact List.mem_cons_of_mem _ (i3 l (by simpa using hl))
      · exact i4.imp id (fun h => List.mem_cons_of_mem _ h)
    · have hnot : isStopLine env m d = false := by simp [isStopLine, hp]
      obtain ⟨i1, i2, i3, i4⟩ := ih v hv
      rw [scanLoop_cons_next env m _ hb, stopDecoded_cons env m hs, hnot]
      refine ⟨by simpa using i1, i2, ?_, ?_⟩
      · intro l hl
        rcases List.mem_append.mp hl with h | h
        · split at h
          · simp at h
          · rw [List.mem_singleton.mp h]; exact List.mem_cons_self _ _
        · exact List.mem_cons_of_mem _ (i3 l h)
      · exact i4.imp id (fun h => List.mem_cons_of_mem _ h)
    · obtain ⟨hwn, hwm⟩ := switchRelayMode_some hw
      have hstop : isStopLine env m d = finishesWithStop env m (d.drop 6) := by
        simp [isStopLine, hp]
      have hdne : d ≠ [] := by
        intro h
        have := length_of_hasPrefix hp
        rw [h] at this
        simp at this
      cases hn : w.needInjectFixedContent with
      | true =>
        rw [if_pos hn] at hb
        obtain ⟨i1, i2, i3, i4⟩ := ih { w with stopMessage := d } (fun _ => hdne)
        rw [scanLoop_cons_next env m _ hb, stopDecoded_cons env m hs, hstop]
        refine ⟨?_, i2, ?_, Or.inr ?_⟩
        · rw [i1]
          show (w.needInjectFixedContent || stopDecoded env m ds) = _
          rw [hwn, Bool.or_assoc]
        · intro l hl
          exact List.mem_cons_of_mem _ (i3 l (by simpa using hl))
        · rcases i4 with h | h
          · rw [h]; exact List.mem_cons_self _ _
          · exact List.mem_cons_of_mem _ h
      | false =>
        rw [if_neg (by simp [hn])] at hb
        obtain ⟨i1, i2, i3, i4⟩ := ih w (fun h => by rw [hn] at h; exact Bool.noConfusion h)
        rw [scanLoop_cons_next env m _ hb, stopDecoded_cons env m hs, hstop]
        refine ⟨?_, i2, ?_, ?_⟩
        · rw [i1, hwn, Bool.or_assoc]
        · intro l hl
          rcases List.mem_append.mp hl with h | h
          · rw [List.mem_singleton.mp h]; exact List.mem_cons_self _ _
          · exact List.mem_cons_of_mem _ (i3 l h)
        · rcases i4 with h | h
          · exact Or.inl (h.trans hwm)
          · exact Or.inr (List.mem_cons_of_mem _ h)

/-! ## More claims about `StreamHandler` -/

/-- C17 (reading after the stop line), amended.  The loop keeps reading after a line that
decodes with finish reason `"stop"`.  When no line between that stop line and the next
sentinel is a `data: ` line whose payload decodes (they are short lines, comment lines or
malformed lines), the handler's whole result (values sent, lines written, response text, tool
count, error) is its result on the input that ends right after the stop line. -/
theorem c17_quiet_after_stop (env : Env) (relayMode : RelayMode) (fixedContent : GoString)
    (close : Option GoErr) (pre : List GoString) (stopLine : GoString) (after : List GoString)
    (hstop : isStopLine env relayMode stopLine = true)
    (hafter : ∀ l ∈ beforeSentinel after, decodedDataLine env relayMode l = false) :
    StreamHandler env (pre ++ stopLine :: after) close relayMode fixedContent
      = StreamHandler env (pre ++ [stopLine]) close relayMode fixedContent := by
  unfold StreamHandler
  rw [scanLoop_stop_then_quiet env relayMode stopLine after hstop hafter pre]

/-- C17 amended, at a stream where a comment, a malformed line and the sentinel follow the
stop chunk. -/
theorem c17_quiet_after_stop_witness :
    StreamHandler demoEnv
        ([ascii "data: " ++ hiPayload] ++ (ascii "data: " ++ stopPayload) ::
          [ascii ": keep-alive", ascii "data: oops", sentinel, ascii "data: " ++ yoPayload])
        none .ChatCompletions (ascii "T")
      = StreamHandler demoEnv ([ascii "data: " ++ hiPayload] ++ [ascii "data: " ++ stopPayload])
        none .ChatCompletions (ascii "T") :=
  c17_quiet_after_stop demoEnv .ChatCompletions (ascii "T") none [ascii "data: " ++ hiPayload]
    (ascii "data: " ++ stopPayload)
    [ascii ": keep-alive", ascii "data: oops", sentinel, ascii "data: " ++ yoPayload]
    (by decide) (by decide)

/-- C17 as stated fails: a content chunk read after the stop chunk is decoded and added to the
response text, which differs from the text for the input that ends at the stop chunk. -/
theorem c17_reads_after_stop :
    isStopLine demoEnv .ChatCompletions (ascii "data: " ++ stopPayload) = true ∧
    (StreamHandler demoEnv [ascii "data: " ++ stopPayload, ascii "data: " ++ hiPayload] none
        .ChatCompletions []).responseText = ascii "Hi" ∧
    (StreamHandler demoEnv [ascii "data: " ++ stopPayload] none
        .ChatCompletions []).responseText = [] := by
  decide

/-- C18 (tool-call count), amended.  In ChatCompletions mode the running count after each
decoded choice is the maximum of the previous count and the number of tool-call entries of
that choice, so it never decreases, and the count returned after a successful close is the
largest number of tool-call entries carried by one choice of a decoded increment before the
sentinel (0 when there is none); in Completions mode the count returned is 0; when the close
fails the count returned is 0. -/
theorem c18_tool_count (env : Env) :
    (∀ (v : Vars) (c : ChatCompletionsStreamResponseChoice),
      (chatChoice env v c).toolCount = max v.toolCount (toolCallsOf c)) ∧
    (∀ (lines : List GoString) (fixedContent : GoString),
      (StreamHandler env lines none .ChatCompletions fixedContent).toolCount
        = largestToolCalls env lines) ∧
    (∀ (lines : List GoString) (close : Option GoErr) (fixedContent : GoString),
      (StreamHandler env lines close .Completions fixedContent).toolCount = 0) ∧
    (∀ (lines : List GoString) (e : GoErr) (relayMode : RelayMode) (fixedContent : GoString),
      (StreamHandler env lines (some e) relayMode fixedContent).toolCount = 0) := by
  refine ⟨chatChoice_toolCount env, ?_, ?_, ?_⟩
  · intro lines fixedContent
    have h := scanLoop_toolCount_chat env lines Vars.init
    simp only [StreamHandler]
    rw [h]
    simp [Vars.init]
  · intro lines close fixedContent
    have h := scanLoop_toolCount_completions env lines Vars.init
    cases close with
    | none =>
      simp only [StreamHandler]
      rw [h]
      rfl
    | some e => rfl
  · intro lines e relayMode fixedContent
    rfl

/-- C18 as stated fails: for one increment with two choices that carry one tool call each, the
increment carries two tool-call entries and the count returned is 1. -/
theorem c18_per_choice_not_per_increment :
    (StreamHandler toolEnv [ascii "data: " ++ twoToolPayload] none .ChatCompletions []).toolCount
      = 1 ∧
    largestEntries toolEnv [ascii "data: " ++ twoToolPayload] = 2 := by
  set_option maxRecDepth 8000 in decide

/-- C19 (when the trailer appears).  For every input, relay mode and trailer, the values sent
are upstream lines that were forwarded, then the trailer line exactly when the trailer is
non-empty and some line before the first sentinel decodes with a choice of finish reason
`"stop"`, then at most one withheld upstream line, then the sentinel: the trailer line is sent
at most once and only in that case.  The response text returned is the same as with the empty
trailer. -/
theorem c19_trailer_emission (env : Env) (lines : List GoString) (close : Option GoErr)
    (relayMode : RelayMode) (fixedContent : GoString) :
    (∃ forwarded withheld : List GoString,
      (∀ l ∈ forwarded, l ∈ lines) ∧ (∀ l ∈ withheld, l ∈ lines) ∧ withheld.length ≤ 1 ∧
      (StreamHandler env lines close relayMode fixedContent).sent
        = forwarded
          ++ (if fixedContent ≠ [] ∧ stopDecoded env relayMode lines = true then
                [GenerateFixedContentMessage env fixedContent] else [])
          ++ withheld ++ [sentinel]) ∧
    (StreamHandler env lines close relayMode fixedContent).responseText
      = (StreamHandler env lines close relayMode []).responseText := by
  constructor
  · obtain ⟨i1, i2, i3, i4⟩ := scanLoop_trailer env relayMode lines Vars.init
      (fun h => Bool.noConfusion h)
    have hneed : (scanLoop env relayMode lines Vars.init).1.needInjectFixedContent
        = stopDecoded env relayMode lines := by
      rw [i1]; rfl
    rw [StreamHandler_sent]
    cases hsd : stopDecoded env relayMode lines with
    | false =>
      refine ⟨(scanLoop env relayMode lines Vars.init).2, [], i3, by simp, by simp, ?_⟩
      rw [hsd] at hneed
      simp [flush, hneed]
    | true =>
      rw [hsd] at hneed
      have hmsg := i2 hneed
      have hmem : (scanLoop env relayMode lines Vars.init).1.stopMessage ∈ lines := by
        rcases i4 with h | h
        · exact absurd h hmsg
        · exact h
      refine ⟨(scanLoop env relayMode lines Vars.init).2,
        [(scanLoop env relayMode lines Vars.init).1.stopMessage], i3, ?_, by simp, ?_⟩
      · intro l hl
        rw [List.mem_singleton.mp hl]
        exact hmem
      · by_cases hf : fixedContent = [] <;> simp [flush, hneed, hmsg, hf]
  · cases close <;> rfl

/-! ## Facts about the scanner -/

theorem drop_first_line (l t : GoString) : (l ++ 10 :: t).drop (l.length + 1) = t := by
  induction l with
  | nil => rfl
  | cons b r ih => simp [ih]

theorem firstLine_first {l : GoString} (t : GoString) (h : (10 : Byte) ∉ l) :
    firstLine (l ++ 10 :: t) = l := by
  induction l with
  | nil => simp [firstLine]
  | cons b r ih =>
    have hb : b ≠ 10 := fun hb => h (by simp [hb])
    have hr : (10 : Byte) ∉ r := fun hm => h (List.mem_cons_of_mem _ hm)
    have := ih hr
    simpa [firstLine, List.takeWhile_cons, hb] using this

theorem firstLine_ge {buf : GoString} (rest : GoString) (h : (10 : Byte) ∉ buf) :
    buf.length ≤ (firstLine (buf ++ rest)).length := by
  induction buf with
  | nil => simp
  | cons b r ih =>
    have hb : b ≠ 10 := fun hb => h (by simp [hb])
    have hr : (10 : Byte) ∉ r := fun hm => h (List.mem_cons_of_mem _ hm)
    have := ih hr
    simpa [firstLine, List.takeWhile_cons, hb] using this

theorem firstLine_last {R : GoString} (h : (10 : Byte) ∉ R) : firstLine R = R := by
  have := firstLine_ge [] h
  simp only [List.append_nil] at this
  have hle : (firstLine R).length ≤ R.length := by
    unfold firstLine
    exact (List.takeWhile_sublist _).length_le
  have hp : firstLine R <+: R := by
    unfold firstLine
    exact List.takeWhile_prefix _
  exact hp.eq_of_length (by omega)

/-- When every reference line is shorter than the limit, so is the first line. -/
theorem firstLine_short {R : GoString}
    (hall : ∀ line ∈ referenceLines R, line.length < maxTokenSize) :
    (firstLine R).length < maxTokenSize := by
  rcases newline_cases R with hn | ⟨l, t, hR, hl⟩
  · by_cases hne : R = []
    · rw [hne]
      decide
    · rw [firstLine_last hn]
      exact hall R (by rw [referenceLines_last hne hn]; simp)
  · rw [hR, firstLine_first t hl]
    exact hall l (by rw [hR, referenceLines_first t hl]; simp)

/-- Making room changes neither the data nor the body, and leaves free space; it fails only on
a buffer that is full at the limit. -/
theorem Scanner.grow_shift {s s2 : Scanner} (hI : s.Inv)
    (h : Scanner.grow (Scanner.shift s) = some s2) :
    s2.buf = s.buf ∧ s2.rest = s.rest ∧ s2.sched = s.sched ∧ s2.eofWithData = s.eofWithData ∧
      s2.eof = s.eof ∧ s2.start + s2.buf.length < s2.size ∧ s2.size ≤ maxTokenSize := by
  obtain ⟨h1, h2, _⟩ := hI
  unfold maxTokenSize at h2 ⊢
  simp only [Scanner.shift, Scanner.grow, maxTokenSize, startBufSize] at h
  split_ifs at h <;> simp only [Option.some.injEq] at h <;> subst h <;>
    simp_all
  all_goals omega

theorem Scanner.grow_shift_some (s : Scanner) (hI : s.Inv) (hlen : s.buf.length < maxTokenSize) :
    ∃ s2, Scanner.grow (Scanner.shift s) = some s2 := by
  obtain ⟨h1, h2, _⟩ := hI
  unfold maxTokenSize at h2 hlen
  simp only [Scanner.shift, Scanner.grow, maxTokenSize, startBufSize]
  split_ifs <;> simp_all
  all_goals omega

theorem Scanner.read_nil (s : Scanner) (h : s.rest = []) :
    Scanner.read s = { s with eof := true } := by
  unfold Scanner.read
  rw [h]

theorem Scanner.read_cons (s : Scanner) (hne : s.rest ≠ [])
    (hfree : s.start + s.buf.length < s.size) :
    ∃ n, 1 ≤ n ∧ s.start + s.buf.length + n ≤ s.size ∧
      Scanner.read s
        = { s with
            buf := s.buf ++ s.rest.take n
            rest := s.rest.drop n
            sched := s.sched.tail
            eof := (s.rest.drop n).isEmpty && s.eofWithData } := by
  refine ⟨min (max 1 (s.sched.headD (s.size - (s.start + s.buf.length))))
    (s.size - (s.start + s.buf.length)), by omega, by omega, ?_⟩
  unfold Scanner.read
  cases hr : s.rest with
  | nil => exact absurd hr hne
  | cons b r => rfl

/-- A read leaves the bytes not yet delivered as they are, keeps the invariant, and either
ends the body or takes at least one byte off it. -/
theorem Scanner.read_spec (s : Scanner) (hfree : s.start + s.buf.length < s.size)
    (hsize : s.size ≤ maxTokenSize) :
    (Scanner.read s).remaining = s.remaining ∧ (Scanner.read s).Inv ∧
      (Scanner.read s).rest.length + (if (Scanner.read s).eof then 0 else 1)
        < s.rest.length + 1 := by
  by_cases hne : s.rest = []
  · rw [Scanner.read_nil s hne]
    refine ⟨rfl, ⟨by simp; omega, hsize, fun _ => hne⟩, ?_⟩
    simp [hne]
  · obtain ⟨n, hn1, hn2, hread⟩ := Scanner.read_cons s hne hfree
    rw [hread]
    refine ⟨?_, ⟨?_, hsize, ?_⟩, ?_⟩
    · simp [Scanner.remaining]
    · have := List.length_take_le n s.rest
      simp only [List.length_append]
      omega
    · intro h
      simp only [Bool.and_eq_true, List.isEmpty_iff] at h
      exact h.1
    · have hpos : 0 < s.rest.length := List.length_pos.mpr hne
      simp only [List.length_drop]
      split <;> omega

theorem Scanner.Scan_succ (fuel : Nat) (s : Scanner) :
    Scanner.Scan (fuel + 1) s
      = if s.buf ≠ [] || s.eof then
          match Split s.buf s.eof with
          | (advance, some token) =>
            some (token, { s with buf := s.buf.drop advance, start := s.start + advance })
          | (advance, none) =>
            if s.eof then none
            else
              match Scanner.grow
                  (Scanner.shift
                    { s with buf := s.buf.drop advance, start := s.start + advance }) with
              | none => none
              | some s' => Scanner.Scan fuel (Scanner.read s')
        else
          match Scanner.grow (Scanner.shift s) with
          | none => none
          | some s' => Scanner.Scan fuel (Scanner.read s') := rfl

theorem Scanner.Scan_more (fuel : Nat) (s : Scanner) (hn : (10 : Byte) ∉ s.buf)
    (heof : s.eof = false) :
    Scanner.Scan (fuel + 1) s
      = match Scanner.grow (Scanner.shift s) with
        | none => none
        | some s' => Scanner.Scan fuel (Scanner.read s') := by
  obtain ⟨buf, start, size, rest, sched, e, eof⟩ := s
  simp only at hn heof
  subst heof
  rw [Scanner.Scan_succ]
  by_cases hne : buf = []
  · simp [hne]
  · simp [hne, Split_more hn]

theorem Scanner.Scan_line (fuel : Nat) (s : Scanner) {l t : GoString}
    (hb : s.buf = l ++ 10 :: t) (hl : (10 : Byte) ∉ l) :
    Scanner.Scan (fuel + 1) s
      = some (l, { s with buf := t, start := s.start + (l.length + 1) }) := by
  rw [Scanner.Scan_succ]
  have hne : s.buf ≠ [] := by rw [hb]; simp
  simp only [hne, ne_eq, not_false_eq_true, decide_True, Bool.true_or, if_true]
  rw [hb, Split_first t s.eof hl]
  simp only [drop_first_line]

theorem Scanner.Scan_last (fuel : Nat) (s : Scanner) (hn : (10 : Byte) ∉ s.buf)
    (heof : s.eof = true) (hne : s.buf ≠ []) :
    Scanner.Scan (fuel + 1) s
      = some (s.buf, { s with buf := [], start := s.start + s.buf.length }) := by
  rw [Scanner.Scan_succ]
  simp [hne, heof, Split_last hne hn]

theorem Scanner.Scan_end (fuel : Nat) (s : Scanner) (heof : s.eof = true) (hb : s.buf = []) :
    Scanner.Scan (fuel + 1) s = none := by
  rw [Scanner.Scan_succ]
  simp [hb, heof, Split_nil_eof]

/-- One call of `Scan` refines one step of the reference splitter, as long as the first line
of what is left is shorter than the limit: it delivers the next line and leaves the remaining
bytes, or delivers nothing exactly when nothing is left. -/
theorem Scanner.Scan_refines (fuel : Nat) : ∀ s : Scanner, s.Inv →
    s.rest.length + (if s.eof then 0 else 1) < fuel →
    (firstLine s.remaining).length < maxTokenSize →
    (∀ tok s', Scanner.Scan fuel s = some (tok, s') →
        nextToken s.remaining = some (tok, s'.remaining) ∧ s'.Inv) ∧
      (Scanner.Scan fuel s = none → nextToken s.remaining = none) := by
  induction fuel with
  | zero => intro s _ hm; omega
  | succ fuel ih =>
    intro s hI hm hshort
    rcases newline_cases s.buf with hn | ⟨l, t, hb, hl⟩
    · cases heof : s.eof with
      | true =>
        have hrest : s.rest = [] := hI.2.2 heof
        by_cases hne : s.buf = []
        · rw [Scanner.Scan_end fuel s heof hne]
          refine ⟨fun _ _ h => by simp at h, fun _ => ?_⟩
          simp [Scanner.remaining, hne, hrest, nextToken_nil]
        · rw [Scanner.Scan_last fuel s hn heof hne]
          refine ⟨fun tok s' h => ?_, fun h => by simp at h⟩
          simp only [Option.some.injEq, Prod.mk.injEq] at h
          obtain ⟨rfl, rfl⟩ := h
          refine ⟨?_, ?_, hI.2.1, fun _ => hrest⟩
          · simp [Scanner.remaining, hrest, nextToken_last hne hn]
          · have := hI.1
            simp only [List.length_nil]
            omega
      | false =>
        rw [Scanner.Scan_more fuel s hn heof]
        have hlen : s.buf.length < maxTokenSize :=
          lt_of_le_of_lt (firstLine_ge s.rest hn) hshort
        obtain ⟨s2, hg⟩ := Scanner.grow_shift_some s hI hlen
        obtain ⟨h2b, h2r, _, _, h2e, h2f, h2s⟩ := Scanner.grow_shift hI hg
        obtain ⟨hrem, hI3, hm3⟩ := Scanner.read_spec s2 h2f h2s
        have hrem2 : (Scanner.read s2).remaining = s.remaining := by
          rw [hrem]
          simp [Scanner.remaining, h2b, h2r]
        rw [hg]
        simp only
        rw [heof] at hm
        rw [h2r] at hm3
        have := ih (Scanner.read s2) hI3 (by simp at hm; omega) (by rw [hrem2]; exact hshort)
        rw [hrem2] at this
        exact this
    · rw [Scanner.Scan_line fuel s hb hl]
      refine ⟨fun tok s' h => ?_, fun h => by simp at h⟩
      simp only [Option.some.injEq, Prod.mk.injEq] at h
      obtain ⟨rfl, rfl⟩ := h
      refine ⟨?_, ?_, hI.2.1, hI.2.2⟩
      · simp only [Scanner.remaining, hb, List.append_assoc, List.cons_append]
        exact nextToken_first (t ++ s.rest) hl
      · have := hI.1
        rw [hb] at this
        simp only [List.length_append, List.length_cons] at this
        show s.start + (l.length + 1) + t.length ≤ s.size
        omega

/-- Repeated scanning delivers the reference lines of what is left, when all of them are
shorter than the limit. -/
theorem Scanner.tokens_eq_referenceLines (n : Nat) : ∀ s : Scanner, s.Inv →
    s.remaining.length < n →
    (∀ line ∈ referenceLines s.remaining, line.length < maxTokenSize) →
    Scanner.tokens n s = referenceLines s.remaining := by
  induction n with
  | zero => intro s _ h; omega
  | succ n ih =>
    intro s hI hlen hall
    have hfuel : s.rest.length + (if s.eof then 0 else 1) < s.rest.length + 2 := by
      split <;> omega
    obtain ⟨hsome, hnone⟩ :=
      Scanner.Scan_refines (s.rest.length + 2) s hI hfuel (firstLine_short hall)
    unfold Scanner.tokens
    cases hscan : Scanner.Scan (s.rest.length + 2) s with
    | none =>
      simp only
      rw [nextToken_none (hnone hscan), referenceLines_nil]
    | some r =>
      obtain ⟨tok, s'⟩ := r
      obtain ⟨hnext, hI'⟩ := hsome tok s' hscan
      obtain ⟨href, hshorter⟩ := nextToken_some hnext
      simp only
      rw [href, ih s' hI' (by omega) (fun line hline => hall line (by rw [href]; simp [hline]))]

/-- The scanner of the handler delivers the reference lines of the body when all of them are
shorter than the limit, whatever the reads return. -/
theorem scanLines_eq_referenceLines (body : GoString) (sched : List Nat) (eofWithData : Bool)
    (hall : ∀ line ∈ referenceLines body, line.length < maxTokenSize) :
    scanLines body sched eofWithData = referenceLines body := by
  unfold scanLines
  have hI : (Scanner.new body sched eofWithData).Inv :=
    ⟨by simp [Scanner.new], by simp [Scanner.new, maxTokenSize], by simp [Scanner.new]⟩
  have hrem : (Scanner.new body sched eofWithData).remaining = body := by
    simp [Scanner.new, Scanner.remaining]
  have := Scanner.tokens_eq_referenceLines (body.length + 1) _ hI (by rw [hrem]; omega)
    (by rw [hrem]; exact hall)
  rw [this, hrem]

/-- A line that reaches the limit before its newline stops the scanner: while the buffer and
the unread bytes up to the next newline together hold at least `maxTokenSize` bytes, `Scan`
delivers nothing, however much fuel it has. -/
theorem Scanner.Scan_long (fuel : Nat) : ∀ (s : Scanner) (l' tail : GoString), s.Inv →
    s.eof = false → s.rest = l' ++ tail → tail ≠ [] → (10 : Byte) ∉ s.buf ++ l' →
    maxTokenSize ≤ (s.buf ++ l').length →
    Scanner.Scan fuel s = none := by
  induction fuel with
  | zero => intro s _ _ _ _ _ _ _ _; rfl
  | succ fuel ih =>
    intro s l' tail hI heof hrest htail hn hlong
    have hnb : (10 : Byte) ∉ s.buf := fun h => hn (List.mem_append_left _ h)
    rw [Scanner.Scan_more fuel s hnb heof]
    cases hg : Scanner.grow (Scanner.shift s) with
    | none => rfl
    | some s2 =>
      obtain ⟨h2b, h2r, _, _, h2e, h2f, h2s⟩ := Scanner.grow_shift hI hg
      have hne : s2.rest ≠ [] := by
        rw [h2r, hrest]
        simp [htail]
      obtain ⟨n, hn1, hn2, hread⟩ := Scanner.read_cons s2 hne h2f
      obtain ⟨_, hI3, _⟩ := Scanner.read_spec s2 h2f h2s
      have hnl : n ≤ l'.length := by
        simp only [List.length_append] at hlong
        rw [h2b] at hn2
        omega
      have htake : s2.rest.take n = l'.take n := by
        rw [h2r, hrest, List.take_append_of_le_length hnl]
      have hdrop : s2.rest.drop n = l'.drop n ++ tail := by
        rw [h2r, hrest, List.drop_append_of_le_length hnl]
      have hcat : (Scanner.read s2).buf ++ l'.drop n = s.buf ++ l' := by
        rw [hread]
        simp only [htake, h2b, List.append_assoc, List.take_append_drop]
      have hrest3 : (Scanner.read s2).rest = l'.drop n ++ tail := by
        rw [hread]
        exact hdrop
      have heof3 : (Scanner.read s2).eof = false := by
        cases h : (Scanner.read s2).eof with
        | false => rfl
        | true =>
          have := hI3.2.2 h
          rw [hrest3] at this
          simp [htail] at this
      simp only
      exact ih (Scanner.read s2) (l'.drop n) tail hI3 heof3 hrest3 htail
        (by rw [hcat]; exact hn) (by rw [hcat]; exact hlong)

theorem Scanner.tokens_of_none (n : Nat) (s : Scanner)
    (h : Scanner.Scan (s.rest.length + 2) s = none) : Scanner.tokens n s = [] := by
  cases n with
  | zero => rfl
  | succ n =>
    unfold Scanner.tokens
    rw [h]

theorem longLine_length : longLine.length = maxTokenSize := by
  unfold longLine
  exact List.length_replicate _ _

theorem longLine_no_newline : (10 : Byte) ∉ longLine := by
  unfold longLine
  intro h
  have := (List.mem_replicate.mp h).2
  exact absurd this (by decide)

/-- A line of exactly `maxTokenSize` bytes followed by a newline is never delivered, whatever
the reads return. -/
theorem scanLines_longBody (sched : List Nat) (eofWithData : Bool) :
    scanLines longBody sched eofWithData = [] := by
  unfold scanLines
  apply Scanner.tokens_of_none
  refine Scanner.Scan_long _ _ longLine [10] ?_ rfl rfl (by simp) ?_ ?_
  · exact ⟨by simp [Scanner.new], by simp [Scanner.new, maxTokenSize], by simp [Scanner.new]⟩
  · simpa [Scanner.new] using longLine_no_newline
  · simp [Scanner.new, longLine_length]

theorem referenceLines_longBody : referenceLines longBody = [longLine] := by
  unfold longBody
  rw [referenceLines_first [] longLine_no_newline, referenceLines_nil]

/-- Whatever `Scan` delivers is the next reference line, and it leaves the remaining bytes:
the limit can only make it deliver nothing. -/
theorem Scanner.Scan_sound (fuel : Nat) : ∀ s : Scanner, s.Inv →
    ∀ tok s', Scanner.Scan fuel s = some (tok, s') →
      nextToken s.remaining = some (tok, s'.remaining) ∧ s'.Inv := by
  induction fuel with
  | zero =>
    intro s _ tok s' h
    simp [Scanner.Scan] at h
  | succ fuel ih =>
    intro s hI tok s' h
    rcases newline_cases s.buf with hn | ⟨l, t, hb, hl⟩
    · cases heof : s.eof with
      | true =>
        have hrest : s.rest = [] := hI.2.2 heof
        by_cases hne : s.buf = []
        · rw [Scanner.Scan_end fuel s heof hne] at h
          simp at h
        · rw [Scanner.Scan_last fuel s hn heof hne] at h
          simp only [Option.some.injEq, Prod.mk.injEq] at h
          obtain ⟨rfl, rfl⟩ := h
          refine ⟨?_, ?_, hI.2.1, fun _ => hrest⟩
          · simp [Scanner.remaining, hrest, nextToken_last hne hn]
          · have := hI.1
            show s.start + s.buf.length + ([] : GoString).length ≤ s.size
            simp only [List.length_nil]
            omega
      | false =>
        rw [Scanner.Scan_more fuel s hn heof] at h
        cases hg : Scanner.grow (Scanner.shift s) with
        | none =>
          rw [hg] at h
          simp at h
        | some s2 =>
          rw [hg] at h
          simp only at h
          obtain ⟨h2b, h2r, _, _, _, h2f, h2s⟩ := Scanner.grow_shift hI hg
          obtain ⟨hrem, hI3, _⟩ := Scanner.read_spec s2 h2f h2s
          have hrem2 : (Scanner.read s2).remaining = s.remaining := by
            rw [hrem]
            simp [Scanner.remaining, h2b, h2r]
          have := ih (Scanner.read s2) hI3 tok s' h
          rw [hrem2] at this
          exact this
    · rw [Scanner.Scan_line fuel s hb hl] at h
      simp only [Option.some.injEq, Prod.mk.injEq] at h
      obtain ⟨rfl, rfl⟩ := h
      refine ⟨?_, ?_, hI.2.1, hI.2.2⟩
      · simp only [Scanner.remaining, hb, List.append_assoc, List.cons_append]
        exact nextToken_first (t ++ s.rest) hl
      · have := hI.1
        rw [hb] at this
        simp only [List.length_append, List.length_cons] at this
        show s.start + (l.length + 1) + t.length ≤ s.size
        omega

/-- The lines delivered are always an initial segment of the reference lines of what is
left. -/
theorem Scanner.tokens_initial (n : Nat) : ∀ s : Scanner, s.Inv →
    Scanner.tokens n s <+: referenceLines s.remaining := by
  induction n with
  | zero => intro s _; exact List.nil_prefix
  | succ n ih =>
    intro s hI
    unfold Scanner.tokens
    cases hscan : Scanner.Scan (s.rest.length + 2) s with
    | none => exact List.nil_prefix
    | some r =>
      obtain ⟨tok, s'⟩ := r
      obtain ⟨hnext, hI'⟩ := Scanner.Scan_sound _ s hI tok s' hscan
      obtain ⟨href, _⟩ := nextToken_some hnext
      simp only
      rw [href]
      exact (List.prefix_cons_inj tok).mpr (ih s' hI')

theorem scanLines_initial (body : GoString) (sched : List Nat) (eofWithData : Bool) :
    scanLines body sched eofWithData <+: referenceLines body := by
  unfold scanLines
  have hI : (Scanner.new body sched eofWithData).Inv :=
    ⟨by simp [Scanner.new], by simp [Scanner.new, maxTokenSize], by simp [Scanner.new]⟩
  have := Scanner.tokens_initial (body.length + 1) _ hI
  simpa [Scanner.new, Scanner.remaining] using this

theorem longBody_ends_with_newline : longBody ≠ [] ∧ longBody.getLast? = some 10 := by
  unfold longBody
  exact ⟨by simp, by simp⟩

/-! ## The splitter sentences -/

/-- C13 (splitter, reference definition), amended.  For every body all
of whose lines are shorter than `maxTokenSize` (65536 bytes), whatever the reads return, the
lines the scanner delivers by applying the split function until the end of input are the
pieces obtained by cutting the body at every newline byte, the final piece being a line only
when it is non-empty.  For every body, the delivered lines are an initial segment of those
pieces, no delivered line contains a newline byte, and the empty body has no line. -/
theorem c13_splitter_reference (body : GoString) (sched : List Nat) (eofWithData : Bool) :
    ((∀ line ∈ referenceLines body, line.length < maxTokenSize) →
      scanLines body sched eofWithData = referenceLines body) ∧
    scanLines body sched eofWithData <+: referenceLines body ∧
    (∀ line ∈ scanLines body sched eofWithData, (10 : Byte) ∉ line) ∧
    (body = [] → scanLines body sched eofWithData = []) := by
  refine ⟨scanLines_eq_referenceLines body sched eofWithData,
    scanLines_initial body sched eofWithData, ?_, ?_⟩
  · intro line hline
    exact referenceLines_no_newline body line
      ((scanLines_initial body sched eofWithData).subset hline)
  · intro h
    subst h
    have := scanLines_initial [] sched eofWithData
    rw [referenceLines_nil] at this
    exact List.prefix_nil.mp this

/-- C13 amended, at the body `data\n\nxy\n` read two bytes, then five, then all that is ready, and at
the empty body. -/
theorem c13_splitter_reference_witness :
    scanLines (ascii "data\n\nxy\n") [2, 5] false = [ascii "data", [], ascii "xy"] ∧
    scanLines [] [] true = [] :=
  ⟨((c13_splitter_reference (ascii "data\n\nxy\n") [2, 5] false).1 (by decide)).trans
      (by decide),
   (c13_splitter_reference [] [] true).2.2.2 rfl⟩

/-- C13 as stated fails at a line of 65536 bytes followed by a newline: the piece
between the start and the newline is that line, but the scanner delivers no line at all. -/
theorem c13_long_line_not_delivered :
    referenceLines longBody = [longLine] ∧ longLine.length = 65536 ∧
    scanLines longBody [] false = [] :=
  ⟨referenceLines_longBody, longLine_length, scanLines_longBody [] false⟩

/-- C14 (framing round trip), amended.  For every body all of whose
lines are shorter than `maxTokenSize` (65536 bytes), whatever the reads return: if the body is
empty or ends with a newline, the delivered lines, each followed by a newline, concatenate to
the body; if it is non-empty and does not end with a newline, the delivered lines joined by
newlines give the body. -/
theorem c14_framing_round_trip (body : GoString) (sched : List Nat) (eofWithData : Bool)
    (hall : ∀ line ∈ referenceLines body, line.length < maxTokenSize) :
    ((body = [] ∨ body.getLast? = some 10) →
      (scanLines body sched eofWithData).flatMap (fun line => line ++ [10]) = body) ∧
    ((body ≠ [] ∧ body.getLast? ≠ some 10) →
      ([10] : GoString).intercalate (scanLines body sched eofWithData) = body) := by
  rw [scanLines_eq_referenceLines body sched eofWithData hall]
  exact referenceLines_roundtrip body

/-- C14 amended, at two bodies: `data\n\nxy\n` read two bytes, then five, then the rest, and `a\nb`
without a final newline, read one byte at a time. -/
theorem c14_framing_round_trip_witness :
    (scanLines (ascii "data\n\nxy\n") [2, 5] false).flatMap (fun line => line ++ [10])
        = ascii "data\n\nxy\n" ∧
    ([10] : GoString).intercalate (scanLines (ascii "a\nb") [1, 1, 1] true) = ascii "a\nb" :=
  ⟨(c14_framing_round_trip (ascii "data\n\nxy\n") [2, 5] false (by decide)).1 (by decide),
   (c14_framing_round_trip (ascii "a\nb") [1, 1, 1] true (by decide)).2 (by decide)⟩

/-- C14 as stated fails at a line of 65536 bytes followed by a newline: the body ends
with a newline, yet the delivered lines, each followed by a newline, concatenate to the empty
string and not to the body. -/
theorem c14_long_line_breaks_round_trip :
    longBody ≠ [] ∧ longBody.getLast? = some 10 ∧
    (scanLines longBody [1] true).flatMap (fun line => line ++ [10]) = [] ∧
    (scanLines longBody [1] true).flatMap (fun line => line ++ [10]) ≠ longBody :=
  ⟨longBody_ends_with_newline.1, longBody_ends_with_newline.2,
   by rw [scanLines_longBody]; rfl,
   by rw [scanLines_longBody]; exact fun h => longBody_ends_with_newline.1 h.symm⟩

end OpenAI
